import Mathlib

/-!
Verification of the arch-opinion architectural-review CLI.

The development shallowly embeds the parts of the program that the
specification's claims are about:

* the JSON-extraction step and the bounded-retry/backoff loop of
  `GeminiClient.analyze` (gemini_client.py),
* the backoff-delay computation of `GeminiClient.wait_with_backoff`,
* the framework-content truncation of `GeminiClient.build_master_prompt`,
* the document-collection loop of `ArchopinionCLI.get_documents` and the
  cleanup behaviour of `ArchopinionCLI.run` (cli.py),
* the report construction of `ReportGenerator.generate_report`
  (report_generator.py).

Python strings are modelled as `List Char` (one element per code point,
matching Python's `len`, slicing and `find`/`rfind`).  `json.loads` is
modelled by an executable recursive-descent reader for JSON values built
from objects, arrays, strings (with the standard escapes), integers,
booleans and null; fractional/exponent number forms and the non-standard
`NaN`/`Infinity` literals accepted by Python are not modelled, and none of
the claims depend on them.  `json.dumps` (used by the specification's
"serialized form" of a result object) is modelled with its default
separators `", "` and `": "` and with `ensure_ascii` off.
-/

/-- Python strings as lists of code points. -/
abbrev PyStr := List Char

/-- The `\x7b` character, written via `Char.ofNat`. -/
def lbrace : Char := Char.ofNat 123

/-- The `\x7d` character, written via `Char.ofNat`. -/
def rbrace : Char := Char.ofNat 125

/-- Index of the first occurrence of `c`, if any. -/
def findAux (c : Char) : PyStr → Option Nat
  | [] => none
  | x :: xs => if x = c then some 0 else (findAux c xs).map (· + 1)

/-- Python's `str.find`: index of the first occurrence, `-1` if absent. -/
def py_find (cs : PyStr) (c : Char) : Int :=
  match findAux c cs with
  | some i => (i : Int)
  | none => -1

/-- Python's `str.rfind`: index of the last occurrence, `-1` if absent. -/
def py_rfind (cs : PyStr) (c : Char) : Int :=
  match findAux c cs.reverse with
  | some i => ((cs.length - 1 - i : Nat) : Int)
  | none => -1

/-- Python slice `cs[a:b]` for non-negative bounds. -/
def pySlice (cs : PyStr) (a b : Nat) : PyStr :=
  (cs.drop a).take (b - a)

/-- JSON values as produced by the modelled `json.loads`. -/
inductive Json where
  | null
  | bool (b : Bool)
  | num (n : Int)
  | str (s : PyStr)
  | arr (elems : List Json)
  | obj (members : List (PyStr × Json))

/-- The whitespace characters skipped between JSON tokens. -/
def isJsonWs (c : Char) : Bool :=
  c = ' ' || c = '\t' || c = '\n' || c = '\r'

/-- Drop leading JSON whitespace. -/
def skipWs : PyStr → PyStr
  | [] => []
  | c :: cs => if isJsonWs c then skipWs cs else c :: cs

/-- Value of a hexadecimal digit character. -/
def hexVal (c : Char) : Option Nat :=
  if '0' ≤ c ∧ c ≤ '9' then some (c.toNat - 48)
  else if 'a' ≤ c ∧ c ≤ 'f' then some (c.toNat - 87)
  else if 'A' ≤ c ∧ c ≤ 'F' then some (c.toNat - 55)
  else none

/-- Read the body of a JSON string literal (after the opening quote),
accumulating decoded characters in reverse.  Mirrors the strict mode of
Python's reader: an unescaped control character is an error. -/
def parseStrAux : PyStr → PyStr → Option (PyStr × PyStr)
  | [], _ => none
  | c :: rest, acc =>
    if c = '"' then some (acc.reverse, rest)
    else if c = '\\' then
      match rest with
      | [] => none
      | e :: r2 =>
        if e = '"' then parseStrAux r2 ('"' :: acc)
        else if e = '\\' then parseStrAux r2 ('\\' :: acc)
        else if e = '/' then parseStrAux r2 ('/' :: acc)
        else if e = 'b' then parseStrAux r2 ('\x08' :: acc)
        else if e = 'f' then parseStrAux r2 ('\x0c' :: acc)
        else if e = 'n' then parseStrAux r2 ('\n' :: acc)
        else if e = 'r' then parseStrAux r2 ('\r' :: acc)
        else if e = 't' then parseStrAux r2 ('\t' :: acc)
        else if e = 'u' then
          match r2 with
          | h1 :: h2 :: h3 :: h4 :: r3 =>
            match hexVal h1, hexVal h2, hexVal h3, hexVal h4 with
            | some a, some b, some c2, some d =>
              parseStrAux r3 (Char.ofNat (4096 * a + 256 * b + 16 * c2 + d) :: acc)
            | _, _, _, _ => none
          | _ => none
        else none
    else if c.toNat < 32 then none
    else parseStrAux rest (c :: acc)

/-- Decimal digit test. -/
def isDigitCh (c : Char) : Bool := '0' ≤ c && c ≤ '9'

/-- Value of a list of decimal digits. -/
def digitsToNat (ds : PyStr) : Nat :=
  ds.foldl (fun a c => 10 * a + (c.toNat - 48)) 0

/-- Read a JSON integer (optional minus sign, then digits). -/
def parseNum (cs : PyStr) : Option (Json × PyStr) :=
  match cs with
  | [] => none
  | c :: rest =>
    if c = '-' then
      let ds := rest.takeWhile isDigitCh
      if ds = [] then none
      else some (.num (-(digitsToNat ds : Int)), rest.drop ds.length)
    else
      let ds := (c :: rest).takeWhile isDigitCh
      if ds = [] then none
      else some (.num ((digitsToNat ds : Int)), (c :: rest).drop ds.length)

mutual

/-- Read one JSON value (fuel-bounded recursive descent, leading
whitespace allowed). -/
def parseVal : Nat → PyStr → Option (Json × PyStr)
  | 0, _ => none
  | f + 1, cs =>
    match skipWs cs with
    | [] => none
    | c :: rest =>
      if c = lbrace then
        match skipWs rest with
        | [] => none
        | c2 :: r2 =>
          if c2 = rbrace then some (.obj [], r2)
          else
            match parseMembers f (c2 :: r2) with
            | some (ms, r3) => some (.obj ms, r3)
            | none => none
      else if c = '[' then
        match skipWs rest with
        | [] => none
        | c2 :: r2 =>
          if c2 = ']' then some (.arr [], r2)
          else
            match parseElems f (c2 :: r2) with
            | some (es, r3) => some (.arr es, r3)
            | none => none
      else if c = '"' then
        match parseStrAux rest [] with
        | some (s, r2) => some (.str s, r2)
        | none => none
      else if c = 't' then
        if rest.take 3 = ['r', 'u', 'e'] then some (.bool true, rest.drop 3) else none
      else if c = 'f' then
        if rest.take 4 = ['a', 'l', 's', 'e'] then some (.bool false, rest.drop 4) else none
      else if c = 'n' then
        if rest.take 3 = ['u', 'l', 'l'] then some (.null, rest.drop 3) else none
      else parseNum (c :: rest)

/-- Read the members of a JSON object after its opening brace (first
non-whitespace character already exposed, known not to close the object). -/
def parseMembers : Nat → PyStr → Option (List (PyStr × Json) × PyStr)
  | 0, _ => none
  | f + 1, cs =>
    match cs with
    | [] => none
    | c :: rest =>
      if c = '"' then
        match parseStrAux rest [] with
        | some (k, r1) =>
          match skipWs r1 with
          | [] => none
          | c2 :: r2 =>
            if c2 = ':' then
              match parseVal f r2 with
              | some (v, r3) =>
                match skipWs r3 with
                | [] => none
                | c3 :: r4 =>
                  if c3 = ',' then
                    match parseMembers f (skipWs r4) with
                    | some (ms, r5) => some ((k, v) :: ms, r5)
                    | none => none
                  else if c3 = rbrace then some ([(k, v)], r4)
                  else none
              | none => none
            else none
        | none => none
      else none

/-- Read the elements of a JSON array after its opening bracket (known to
be non-empty). -/
def parseElems : Nat → PyStr → Option (List Json × PyStr)
  | 0, _ => none
  | f + 1, cs =>
    match parseVal f cs with
    | some (v, r1) =>
      match skipWs r1 with
      | [] => none
      | c2 :: r2 =>
        if c2 = ',' then
          match parseElems f r2 with
          | some (es, r3) => some (v :: es, r3)
          | none => none
        else if c2 = ']' then some ([v], r2)
        else none
    | none => none

end

/-- Model of Python's `json.loads`: read one value, then require only
whitespace to remain. -/
def json_loads (cs : PyStr) : Option Json :=
  match parseVal (cs.length + 1) cs with
  | some (v, rest) => if skipWs rest = [] then some v else none
  | none => none

/-- Outcome of the JSON-extraction step of `GeminiClient.analyze`
(gemini_client.py lines 223-253): `noJson` is the branch taken when
`start_idx == -1 or end_idx == 0`; otherwise the slice between the first
`\x7b` and the last `\x7d` (inclusive) is parsed, giving `parsed` on
success and `malformed` (with the attempted slice) on a decode error. -/
inductive ExtractResult where
  | noJson
  | malformed (sliced : PyStr)
  | parsed (v : Json)

/-- The extraction step of `GeminiClient.analyze`:
`start_idx = response_text.find(chr(123))`,
`end_idx = response_text.rfind(chr(125)) + 1`, the guard
`start_idx == -1 or end_idx == 0`, the slice
`response_text[start_idx:end_idx]`, and `json.loads` on the slice. -/
def extract_json (cs : PyStr) : ExtractResult :=
  let start := py_find cs lbrace
  let endIdx := py_rfind cs rbrace + 1
  if start = -1 ∨ endIdx = 0 then .noJson
  else
    let json_str := pySlice cs start.toNat endIdx.toNat
    match json_loads json_str with
    | some v => .parsed v
    | none => .malformed json_str

example : json_loads ("\x7b\"a\": 1\x7d".toList) =
    some (.obj [("a".toList, .num 1)]) := rfl

example : json_loads ("  [true, null, -12, \"x\\n\"] ".toList) =
    some (.arr [.bool true, .null, .num (-12), .str "x\n".toList]) := rfl

example : extract_json ("see \x7bcurly note\x7d below".toList) =
    .malformed "\x7bcurly note\x7d".toList := rfl

example : extract_json ("no braces here".toList) = .noJson := rfl

example : extract_json ("\x7d a \x7b".toList) = .malformed [] := rfl

example : extract_json ("text \x7b\"a\": 1\x7d trail".toList) =
    .parsed (.obj [("a".toList, .num 1)]) := rfl

/-- Python whitespace characters, as matched by the regex class. -/
def isPyWs (c : Char) : Bool :=
  c = ' ' || c = '\t' || c = '\n' || c = '\r' || c = '\x0b' || c = '\x0c'

/-- Python's substring containment `needle in hay`. -/
def pyContains : PyStr → PyStr → Bool
  | [], needle => needle.isEmpty
  | c :: t, needle => needle.isPrefixOf (c :: t) || pyContains t needle

/-- Leftmost match of the pattern: the literal text `seconds:`, optional
whitespace, then at least one digit; returns the digits' value. -/
def findSeconds : PyStr → Option Nat
  | [] => none
  | c :: t =>
    if ("seconds:".toList).isPrefixOf (c :: t) then
      let ds := (((c :: t).drop 8).dropWhile isPyWs).takeWhile isDigitCh
      if ds = [] then findSeconds t else some (digitsToNat ds)
    else findSeconds t

/-- The detail-sniffing part of `GeminiClient.wait_with_backoff`
(gemini_client.py lines 39-49): when the error's detail text mentions
`retry_delay`, search it for a `seconds: <digits>` group. -/
def parse_retry_delay (details : PyStr) : Option Nat :=
  if pyContains details ("retry_delay".toList) then findSeconds details
  else none

/-- Delay computed by `GeminiClient.wait_with_backoff` (gemini_client.py
lines 36-62): the configured base, overridden by a parsed suggested
interval when the error carries detail text containing one, scaled by
`2 ** attempt`.  `details = none` models an error without a `_details`
attribute. -/
def wait_with_backoff (attempt : Nat) (base_delay : Nat) (details : Option PyStr) : Nat :=
  let base2 :=
    match details with
    | some d =>
      match parse_retry_delay d with
      | some n => n
      | none => base_delay
    | none => base_delay
  base2 * 2 ^ attempt

/-- What one dispatch of `self.model.generate_content` does, as seen by the
retry loop of `GeminiClient.analyze`: quota exhaustion (with the optional
detail text of the error), a malformed-request rejection, any other
exception (tagged so that propagation can be tracked), or a textual
response. -/
inductive CallOutcome where
  | rateLimited (details : Option PyStr)
  | invalidArgument
  | otherError (tag : PyStr)
  | responseText (text : PyStr)

/-- The fatal outcomes of `GeminiClient.analyze`: the re-raised
`ResourceExhausted` after the last attempt, the immediately re-raised
`InvalidArgument`, the re-raised final unexpected error, the two
`ValueError`s of the extraction step, and the `ValueError` raised after a
zero-iteration loop. -/
inductive AnalyzeError where
  | rateLimitExceeded
  | invalidRequest
  | otherFailure (tag : PyStr)
  | noValidJson
  | invalidJsonResponse
  | analysisFailed

/-- Observable actions of the retry loop: one remote dispatch, or one
sleep of the given number of seconds. -/
inductive AnalyzeEvent where
  | dispatch
  | sleep (secs : Nat)

/-- The retry loop of `GeminiClient.analyze` (gemini_client.py lines
196-285), one iteration per constructor case.  `attempt` is the loop
counter, `remaining` the number of iterations left
(`remaining = max_retries - attempt`); `attempt < max_retries - 1` is
`remaining ≠ 1`.  Events record each dispatch and each sleep (both the
backoff countdown and the fixed `time.sleep(5)` delays).  A `remaining` of
`0` is the fall-through after a zero-iteration loop, where `last_error` is
still `None` and `ValueError("Analysis failed after all retries")` is
raised. -/
def analyzeGo (out : Nat → CallOutcome) (base_delay : Nat) :
    Nat → Nat → Except AnalyzeError Json × List AnalyzeEvent
  | _, 0 => (.error .analysisFailed, [])
  | attempt, r + 1 =>
    match out attempt with
    | .rateLimited d =>
      if r = 0 then (.error .rateLimitExceeded, [.dispatch])
      else
        let del := wait_with_backoff attempt base_delay d
        let next := analyzeGo out base_delay (attempt + 1) r
        (next.1, .dispatch :: .sleep del :: next.2)
    | .invalidArgument => (.error .invalidRequest, [.dispatch])
    | .otherError tag =>
      if r = 0 then (.error (.otherFailure tag), [.dispatch])
      else
        let next := analyzeGo out base_delay (attempt + 1) r
        (next.1, .dispatch :: .sleep 5 :: next.2)
    | .responseText s =>
      match extract_json s with
      | .noJson =>
        if r = 0 then (.error .noValidJson, [.dispatch])
        else
          let next := analyzeGo out base_delay (attempt + 1) r
          (next.1, .dispatch :: .sleep 5 :: next.2)
      | .malformed _ =>
        if r = 0 then (.error .invalidJsonResponse, [.dispatch])
        else
          let next := analyzeGo out base_delay (attempt + 1) r
          (next.1, .dispatch :: .sleep 5 :: next.2)
      | .parsed v => (.ok v, [.dispatch])

/-- `GeminiClient.analyze` with attempt cap `max_retries` and configured
default delay `base_delay`, run against the dispatch behaviour `out`. -/
def analyze (out : Nat → CallOutcome) (max_retries base_delay : Nat) :
    Except AnalyzeError Json × List AnalyzeEvent :=
  analyzeGo out base_delay 0 max_retries

/-- The effective base delay used by `wait_with_backoff` for an error with
the given optional detail text. -/
def effectiveBase (details : Option PyStr) (base_delay : Nat) : Nat :=
  match details with
  | some d =>
    match parse_retry_delay d with
    | some n => n
    | none => base_delay
  | none => base_delay

example :
    wait_with_backoff 2 10 (some ("retry_delay \x7b seconds: 7 \x7d".toList)) = 28 := rfl

example : wait_with_backoff 3 10 none = 80 := rfl

example :
    analyze (fun _ => .rateLimited none) 3 10 =
      (.error .rateLimitExceeded,
        [.dispatch, .sleep 10, .dispatch, .sleep 20, .dispatch]) := rfl

example :
    analyze (fun _ => .responseText ("ok \x7b\"a\": 1\x7d".toList)) 3 10 =
      (.ok (.obj [("a".toList, .num 1)]), [.dispatch]) := rfl

/-- Lowercase hexadecimal digit character for a value below 16. -/
def hexDigitCh (n : Nat) : Char := Nat.digitChar n

/-- JSON string-escape for one character: quote and backslash escaped,
short escapes for the common control characters, `\u00XX` for the rest of
the control range, everything else literal. -/
def escapeChar (c : Char) : PyStr :=
  if c = '"' then ['\\', '"']
  else if c = '\\' then ['\\', '\\']
  else if c = '\n' then ['\\', 'n']
  else if c = '\t' then ['\\', 't']
  else if c = '\r' then ['\\', 'r']
  else if c = '\x08' then ['\\', 'b']
  else if c = '\x0c' then ['\\', 'f']
  else if c.toNat < 32 then
    ['\\', 'u', '0', '0', hexDigitCh (c.toNat / 16), hexDigitCh (c.toNat % 16)]
  else [c]

/-- Escape every character of a string body. -/
def escList (s : PyStr) : PyStr := s.flatMap escapeChar

/-- Serialize a JSON string literal. -/
def serStrC (s : PyStr) : PyStr := '"' :: (escList s ++ ['"'])

/-- Decimal digits of a natural number (fuel-bounded; `fuel > n` is
enough). -/
def natDecGo : Nat → Nat → PyStr
  | 0, _ => []
  | f + 1, n =>
    if n < 10 then [Nat.digitChar n]
    else natDecGo f (n / 10) ++ [Nat.digitChar (n % 10)]

/-- Decimal digits of a natural number. -/
def natDec (n : Nat) : PyStr := natDecGo (n + 1) n

/-- Python's `str` on an integer. -/
def intDec (n : Int) : PyStr :=
  if n < 0 then '-' :: natDec n.natAbs else natDec n.toNat

/-- The text `json.dumps` emits for `None`. -/
def nullText : PyStr := 'n' :: 'u' :: 'l' :: ['l']

/-- The text `json.dumps` emits for `True`. -/
def trueText : PyStr := 't' :: 'r' :: 'u' :: ['e']

/-- The text `json.dumps` emits for `False`. -/
def falseText : PyStr := 'f' :: 'a' :: 'l' :: 's' :: ['e']

mutual

/-- Model of `json.dumps` with the default separators `", "` and `": "`. -/
def serVal : Json → PyStr
  | .null => nullText
  | .bool true => trueText
  | .bool false => falseText
  | .num n => intDec n
  | .str s => serStrC s
  | .obj ms => lbrace :: (serMembersList ms ++ [rbrace])
  | .arr es => '[' :: (serElemsList es ++ [']'])

/-- Serialized members of an object, separated by `", "`. -/
def serMembersList : List (PyStr × Json) → PyStr
  | [] => []
  | [(k, v)] => serStrC k ++ ':' :: ' ' :: serVal v
  | (k, v) :: m :: ms =>
    (serStrC k ++ ':' :: ' ' :: serVal v) ++ ',' :: ' ' :: serMembersList (m :: ms)

/-- Serialized elements of an array, separated by `", "`. -/
def serElemsList : List Json → PyStr
  | [] => []
  | [v] => serVal v
  | v :: e :: es => serVal v ++ ',' :: ' ' :: serElemsList (e :: es)

end

/-- One per-framework finding of the `AnalysisResult` contract (spec §3;
the `aiReviewFramework` entries of the output schema in
`build_master_prompt`). -/
structure FrameworkFinding where
  framework : PyStr
  relevantPolicies : List PyStr
  keyConsiderations : PyStr

/-- One per-drawing finding (`planByPlanReview` entry). -/
structure PlanReview where
  planType : PyStr
  positives : List PyStr
  observations : List PyStr
  complianceNotes : PyStr

/-- One per-policy-area compliance entry (`policyCompatibilitySummary`). -/
structure PolicyEntry where
  policyArea : PyStr
  status : PyStr
  details : PyStr
  recommendations : List PyStr

/-- The `AnalysisResult` shape: the four-field contract the remote model's
output must conform to (spec §3). -/
structure AnalysisResult where
  aiReviewFramework : List FrameworkFinding
  planByPlanReview : List PlanReview
  policyCompatibilitySummary : List PolicyEntry
  aiRecommendationSummary : PyStr

/-- JSON form of a per-framework finding. -/
def FrameworkFinding.toJson (f : FrameworkFinding) : Json :=
  .obj [("framework".toList, .str f.framework),
        ("relevantPolicies".toList, .arr (f.relevantPolicies.map .str)),
        ("keyConsiderations".toList, .str f.keyConsiderations)]

/-- JSON form of a per-drawing finding. -/
def PlanReview.toJson (p : PlanReview) : Json :=
  .obj [("planType".toList, .str p.planType),
        ("positives".toList, .arr (p.positives.map .str)),
        ("observations".toList, .arr (p.observations.map .str)),
        ("complianceNotes".toList, .str p.complianceNotes)]

/-- JSON form of a per-policy-area entry. -/
def PolicyEntry.toJson (p : PolicyEntry) : Json :=
  .obj [("policyArea".toList, .str p.policyArea),
        ("status".toList, .str p.status),
        ("details".toList, .str p.details),
        ("recommendations".toList, .arr (p.recommendations.map .str))]

/-- JSON form of an `AnalysisResult`. -/
def AnalysisResult.toJson (r : AnalysisResult) : Json :=
  .obj [("aiReviewFramework".toList, .arr (r.aiReviewFramework.map FrameworkFinding.toJson)),
        ("planByPlanReview".toList, .arr (r.planByPlanReview.map PlanReview.toJson)),
        ("policyCompatibilitySummary".toList,
          .arr (r.policyCompatibilitySummary.map PolicyEntry.toJson)),
        ("aiRecommendationSummary".toList, .str r.aiRecommendationSummary)]

/-- The serialized text form of an `AnalysisResult`. -/
def serializeAnalysisResult (r : AnalysisResult) : PyStr :=
  serVal r.toJson

/-- `max_framework_length` from `build_master_prompt`
(gemini_client.py line 116). -/
def max_framework_length : Nat := 1000

/-- Framework-content truncation of `build_master_prompt` (gemini_client.py
lines 116-118): content longer than the maximum is cut to its first 1000
characters with the marker appended. -/
def truncate_content (content : PyStr) : PyStr :=
  if content.length > max_framework_length then
    content.take max_framework_length ++ "\n[Content truncated]".toList
  else content

/-- The frameworks block of the master prompt (gemini_client.py lines
114-119): for each (name, content) pair the fragment
`"\n**" + name + ":**\n" + truncated + "\n"` is appended. -/
def frameworks_text (fw : List (PyStr × PyStr)) : PyStr :=
  fw.foldl
    (fun acc p =>
      acc ++ ("\n**".toList ++ p.1 ++ ":**\n".toList ++ truncate_content p.2 ++ "\n".toList))
    []

/-- An uploaded document (models.py): the remote handle `file_uri` is
`none` until upload succeeds. -/
structure UploadedDocument where
  file_path : PyStr
  document_type : PyStr
  file_uri : Option PyStr

/-- Python's rendering of an optional string inside an f-string
(`None` for an absent value). -/
def pyShowOptStr : Option PyStr → PyStr
  | some s => s
  | none => "None".toList

/-- The `doc_refs` block of `build_master_prompt` (gemini_client.py lines
108-111): one `- <type>: <uri>` line per document of the request. -/
def doc_refs (docs : List UploadedDocument) : PyStr :=
  List.intercalate ("\n".toList)
    (docs.map (fun d => "- ".toList ++ d.document_type ++ ": ".toList ++ pyShowOptStr d.file_uri))

/-- One iteration of the interactive loop of `ArchopinionCLI.get_documents`
(cli.py lines 74-142): the user either cancels the file dialog, or selects
a file of a given type whose upload either fails (`upload = none`, the
`except` branch continues the loop) or succeeds with a returned URI, after
which the user does or does not ask for another document. -/
inductive DocEvent where
  | cancel
  | select (path : PyStr) (dtype : PyStr) (upload : Option PyStr) (more : Bool)

/-- The code after the loop of `get_documents` (cli.py lines 147-149):
`sys.exit(1)` when no documents were collected, otherwise the list is
returned. -/
def finishDocs (docs : List UploadedDocument) :
    Option (Except Unit (List UploadedDocument)) :=
  if docs.isEmpty then some (.error ()) else some (.ok docs)

/-- The collection loop of `ArchopinionCLI.get_documents` (cli.py lines
64-154) run against a finite interaction script; `none` means the script
ended while the loop was still asking for input.  A cancel with an empty
collection re-prompts; a cancel with documents breaks; a failed upload
continues the loop without appending; a successful upload appends a
document carrying the returned URI and breaks unless more was requested. -/
def get_documents :
    List DocEvent → List UploadedDocument → Option (Except Unit (List UploadedDocument))
  | [], _ => none
  | .cancel :: rest, docs =>
    if docs.isEmpty then get_documents rest docs else finishDocs docs
  | .select _ _ none _ :: rest, docs => get_documents rest docs
  | .select path dtype (some uri) more :: rest, docs =>
    let docs2 := docs ++ [⟨path, dtype, some uri⟩]
    if more then get_documents rest docs2 else finishDocs docs2

/-- Outcome of one phase of `ArchopinionCLI.run`: normal completion, an
exception (of class `Exception`), or a `KeyboardInterrupt`. -/
inductive PhaseOutcome where
  | ok
  | exc
  | intr
deriving DecidableEq

/-- How the process leaves `run`: a normal return (including the caught
`KeyboardInterrupt` path) or a re-raised exception. -/
inductive ExitKind where
  | returned
  | raised
deriving DecidableEq

/-- A schedule of phase outcomes for one execution of `ArchopinionCLI.run`
(cli.py lines 239-336): the connection test result, then the outcome of
each sequential phase.  `postDocsOutcome` covers `get_frameworks` and
`get_user_prompt`, `reportOutcome` covers `generate_report` and the
open-report prompt. -/
structure RunScript where
  connOk : Bool
  infoOutcome : PhaseOutcome
  docsOutcome : PhaseOutcome
  postDocsOutcome : PhaseOutcome
  proceed : Bool
  fetchOutcome : PhaseOutcome
  analyzeOutcome : PhaseOutcome
  reportOutcome : PhaseOutcome

/-- `GeminiClient.cleanup_files` (gemini_client.py lines 376-381): one
remote deletion per document whose `file_uri` is truthy (present and
non-empty); returns the handles deleted, in order. -/
def cleanup_files (docs : List UploadedDocument) : List PyStr :=
  docs.filterMap
    (fun d =>
      match d.file_uri with
      | some u => if u.isEmpty then none else some u
      | none => none)

/-- `ArchopinionCLI.run` (cli.py lines 239-336) as a function from a phase
schedule and the collected documents to the concatenated deletion log (one
entry per remote deletion, in order) and the exit kind.  The branches
mirror the source: an exception before `documents` is bound reaches the
outer handlers with nothing to clean; after binding, cancellation at the
confirm prompt, an analysis failure, and both outer handlers each invoke
`cleanup_files` once; the report phase runs `cleanup_files` in a `finally`
block, so a `KeyboardInterrupt` there is cleaned up by the `finally` and
then again by the outer `except KeyboardInterrupt` handler. -/
def runWorkflow (scr : RunScript) (docs : List UploadedDocument) :
    List PyStr × ExitKind :=
  if !scr.connOk then ([], .returned)
  else
    match scr.infoOutcome with
    | .exc => ([], .raised)
    | .intr => ([], .returned)
    | .ok =>
      match scr.docsOutcome with
      | .exc => ([], .raised)
      | .intr => ([], .returned)
      | .ok =>
        let cl := cleanup_files docs
        match scr.postDocsOutcome with
        | .exc => (cl, .raised)
        | .intr => (cl, .returned)
        | .ok =>
          if !scr.proceed then (cl, .returned)
          else
            match scr.fetchOutcome with
            | .exc => (cl, .raised)
            | .intr => (cl, .returned)
            | .ok =>
              match scr.analyzeOutcome with
              | .exc => (cl, .returned)
              | .intr => (cl, .returned)
              | .ok =>
                match scr.reportOutcome with
                | .ok => (cl, .returned)
                | .exc => (cl, .returned)
                | .intr => (cl ++ cl, .returned)

/-- Project information (models.py): optional fields are `None` when the
user left them blank. -/
structure ProjectInfoM where
  address : PyStr
  project_type : PyStr
  council : Option PyStr
  planning_reference : Option PyStr

/-- Python's `x or default` on an optional string: `None` and the empty
string are falsy. -/
def orDefaultStr : Option PyStr → PyStr → PyStr
  | some s, d => if s.isEmpty then d else s
  | none, d => d

/-- An element of the report story: a paragraph of text, a spacer, a table
of string cells, or a page break.  Styling and geometry of the rendering
library are outside the model. -/
inductive RItem where
  | par (text : PyStr)
  | spacer
  | tbl (rows : List (List PyStr))
  | pageBreak

/-- Dictionary lookup on a member list (Python dicts have unique keys, so
first match suffices). -/
def dget : List (PyStr × Json) → PyStr → Option Json
  | [], _ => none
  | (k, v) :: rest, key => if k = key then some v else dget rest key

/-- Python's `d.get(key, default)`. -/
def dgetD (m : List (PyStr × Json)) (key : PyStr) (dflt : Json) : Json :=
  match dget m key with
  | some v => v
  | none => dflt

/-- Python's `d[key]`: `KeyError` when absent, `TypeError` when the value
indexed is not a dictionary. -/
def dIndex (v : Json) (key : PyStr) : Except PyStr Json :=
  match v with
  | .obj ms =>
    match dget ms key with
    | some x => .ok x
    | none => .error ("KeyError: ".toList ++ key)
  | _ => .error ("TypeError".toList)

/-- A value used where the rendering library requires text. -/
def asStrE : Json → Except PyStr PyStr
  | .str s => .ok s
  | _ => .error ("TypeError".toList)

/-- Python iteration over a value: a list yields its elements, a string
its characters, a dictionary its keys; anything else raises. -/
def asIter : Json → Except PyStr (List Json)
  | .arr es => .ok es
  | .str s => .ok (s.map (fun c => .str [c]))
  | .obj ms => .ok (ms.map (fun p => .str p.1))
  | _ => .error ("TypeError".toList)

/-- Python's `", ".join(v)`: every element must be a string. -/
def pyJoinCommaSpace (v : Json) : Except PyStr PyStr := do
  let items ← asIter v
  let strs ← items.mapM asStrE
  return List.intercalate (", ".toList) strs

/-- Rendering of a value inside an f-string.  Container values are
abbreviated (no claim depends on Python's exact `repr` of lists and
dictionaries). -/
def toText : Json → PyStr
  | .str s => s
  | .null => "None".toList
  | .bool true => "True".toList
  | .bool false => "False".toList
  | .num n => intDec n
  | .arr _ => "[...]".toList
  | .obj _ => "\x7b...\x7d".toList

/-- The status colour chosen in `generate_report` (report_generator.py
lines 134-141): green for `Compliant`, orange for `Partially Compliant`,
red for everything else.  The source computes it per row and never uses
it. -/
def statusColor (status : Json) : PyStr :=
  match status with
  | .str s =>
    if s = "Compliant".toList then "green".toList
    else if s = "Partially Compliant".toList then "orange".toList
    else "red".toList
  | _ => "red".toList

/-- Python's `s.split(chr(10) ++ chr(10))` (split on a blank line),
scanning left to right.  `cur` accumulates the current piece in reverse. -/
def splitOn2NL : PyStr → PyStr → List PyStr
  | [], cur => [cur.reverse]
  | '\n' :: '\n' :: rest, cur => cur.reverse :: splitOn2NL rest []
  | c :: rest, cur => splitOn2NL rest (c :: cur)

/-- The disclaimer paragraph appended at the end of every report. -/
def disclaimerText : PyStr :=
  ("<b>Disclaimer:</b> This AI-generated report is for informational purposes only.").toList

/-- `ReportGenerator.generate_report` (report_generator.py lines 46-204)
as a function from the project information, the formatted date, and the
analysis-result dictionary to the built story (or the first error raised).
The four top-level fields are read with `.get` and a default
(empty list / empty string); every per-entry field is indexed directly
except `recommendations`, which is read with `.get` and rendered only when
it is a non-empty list. -/
def generate_report (req : ProjectInfoM) (today : PyStr)
    (analysis_result : List (PyStr × Json)) : Except PyStr (List RItem) := do
  let projectRows : List (List PyStr) :=
    [["Address:".toList, req.address],
     ["Project Type:".toList, req.project_type],
     ["Local Authority:".toList, orDefaultStr req.council ("Not specified".toList)],
     ["Planning Reference:".toList, orDefaultStr req.planning_reference ("None".toList)],
     ["Analysis Date:".toList, today]]
  let head :=
    [RItem.par ("ARCHOPINION".toList),
     RItem.par ("AI Architectural Review Report".toList),
     RItem.spacer,
     RItem.par ("Project Information".toList),
     RItem.tbl projectRows,
     RItem.spacer,
     RItem.par ("Regulatory Framework Analysis".toList)]
  let fws ← asIter (dgetD analysis_result ("aiReviewFramework".toList) (.arr []))
  let fwItems ← fws.foldlM
    (fun acc fw => do
      let nameS ← asStrE (← dIndex fw ("framework".toList))
      let kc ← dIndex fw ("keyConsiderations".toList)
      let polsS ← pyJoinCommaSpace (← dIndex fw ("relevantPolicies".toList))
      return acc ++
        [RItem.par nameS,
         RItem.par ("<b>Key Considerations:</b> ".toList ++ toText kc),
         RItem.par ("Relevant Policies: ".toList ++ polsS),
         RItem.spacer])
    []
  let plansHead := [RItem.pageBreak, RItem.par ("Plan-by-Plan Review".toList)]
  let plans ← asIter (dgetD analysis_result ("planByPlanReview".toList) (.arr []))
  let planItems ← plans.foldlM
    (fun acc plan => do
      let ptS ← asStrE (← dIndex plan ("planType".toList))
      let poss ← asIter (← dIndex plan ("positives".toList))
      let obss ← asIter (← dIndex plan ("observations".toList))
      let cn ← dIndex plan ("complianceNotes".toList)
      return acc ++
        [RItem.par ptS, RItem.par ("<b>Positives:</b>".toList)] ++
        poss.map (fun p => RItem.par ("• ".toList ++ toText p)) ++
        [RItem.spacer, RItem.par ("<b>Areas for Consideration:</b>".toList)] ++
        obss.map (fun o => RItem.par ("• ".toList ++ toText o)) ++
        [RItem.spacer,
         RItem.par ("<b>Compliance Notes:</b> ".toList ++ toText cn),
         RItem.spacer])
    []
  let polsHead := [RItem.pageBreak, RItem.par ("Policy Compatibility Summary".toList)]
  let pols ← asIter (dgetD analysis_result ("policyCompatibilitySummary".toList) (.arr []))
  let rows ← pols.foldlM
    (fun acc policy => do
      let st ← dIndex policy ("status".toList)
      let _color := statusColor st
      let area ← dIndex policy ("policyArea".toList)
      let st2 ← dIndex policy ("status".toList)
      let detS ← asStrE (← dIndex policy ("details".toList))
      let cell3 := if detS.length > 100 then detS.take 100 ++ "...".toList else detS
      return acc ++ [[toText area, toText st2, cell3]])
    []
  let summaryRows := ["Policy Area".toList, "Status".toList, "Details".toList] :: rows
  let detItems ← pols.foldlM
    (fun acc policy => do
      let areaS ← asStrE (← dIndex policy ("policyArea".toList))
      let st ← dIndex policy ("status".toList)
      let det ← dIndex policy ("details".toList)
      let recs :=
        match policy with
        | .obj ms => dget ms ("recommendations".toList)
        | _ => none
      let recItems :=
        match recs with
        | some (.arr (r :: rs)) =>
          RItem.par ("<b>Recommendations:</b>".toList) ::
            (r :: rs).map (fun rec => RItem.par ("• ".toList ++ toText rec))
        | _ => []
      return acc ++
        [RItem.par areaS,
         RItem.par ("<b>Status:</b> ".toList ++ toText st),
         RItem.par ("<b>Details:</b> ".toList ++ toText det)] ++
        recItems ++ [RItem.spacer])
    []
  let summaryText ←
    match dget analysis_result ("aiRecommendationSummary".toList) with
    | none => pure ([] : PyStr)
    | some v => asStrE v
  let sumItems :=
    (splitOn2NL summaryText []).flatMap
      (fun p => if p.any (fun c => !(isPyWs c)) then [RItem.par p, RItem.spacer] else [])
  return head ++ fwItems ++ plansHead ++ planItems ++ polsHead ++
    [RItem.tbl summaryRows, RItem.spacer] ++ detItems ++
    [RItem.pageBreak, RItem.par ("AI Recommendations Summary".toList)] ++ sumItems ++
    [RItem.spacer, RItem.par disclaimerText]

example :
    (generate_report ⟨"1 Main St".toList, "Residential - New Build".toList, none, none⟩
      ("12 October 2026".toList) []).isOk = true := rfl

example :
    (generate_report ⟨"1 Main St".toList, "Residential - New Build".toList, none, none⟩
      ("12 October 2026".toList)
      [("aiReviewFramework".toList,
        .arr [.obj [("framework".toList, .str "NPPF".toList),
                    ("keyConsiderations".toList, .str "K".toList)]])]) =
      .error ("KeyError: relevantPolicies".toList) := rfl

theorem findAux_of_not_mem {c : Char} {cs : PyStr} (h : c ∉ cs) : findAux c cs = none := by
  induction cs with
  | nil => rfl
  | cons x xs ih =>
    simp only [List.mem_cons, not_or] at h
    simp only [findAux]
    rw [if_neg (fun hx => h.1 hx.symm), ih h.2]
    rfl

theorem findAux_append_cons {c : Char} {p q : PyStr} (h : c ∉ p) :
    findAux c (p ++ c :: q) = some p.length := by
  induction p with
  | nil => simp [findAux]
  | cons x xs ih =>
    simp only [List.mem_cons, not_or] at h
    simp only [List.cons_append, findAux]
    rw [if_neg (fun hx => h.1 hx.symm)]
    simp [List.append_eq, ih h.2]

theorem findAux_eq_some {c : Char} :
    ∀ {cs : PyStr} {i : Nat}, findAux c cs = some i →
      ∃ p q, cs = p ++ c :: q ∧ p.length = i ∧ c ∉ p := by
  intro cs
  induction cs with
  | nil => intro i h; exact absurd h (by simp [findAux])
  | cons x xs ih =>
    intro i h
    simp only [findAux] at h
    by_cases hx : x = c
    · rw [if_pos hx] at h
      have h0 : (0 : Nat) = i := Option.some.inj h
      exact ⟨[], xs, by simp [hx], by simp [← h0], by simp⟩
    · rw [if_neg hx] at h
      rcases Option.map_eq_some'.mp h with ⟨j, hj, hji⟩
      rcases ih hj with ⟨p, q, hcs, hlen, hmem⟩
      refine ⟨x :: p, q, by simp [hcs], by simp [hlen, hji], ?_⟩
      simp only [List.mem_cons, not_or]
      exact ⟨fun hc => hx hc.symm, hmem⟩

theorem py_find_append_cons {c : Char} {p q : PyStr} (h : c ∉ p) :
    py_find (p ++ c :: q) c = (p.length : Int) := by
  unfold py_find
  rw [findAux_append_cons h]

theorem py_find_of_not_mem {c : Char} {cs : PyStr} (h : c ∉ cs) : py_find cs c = -1 := by
  unfold py_find
  rw [findAux_of_not_mem h]

theorem py_rfind_append_cons {c : Char} {u w : PyStr} (h : c ∉ w) :
    py_rfind (u ++ c :: w) c = (u.length : Int) := by
  unfold py_rfind
  have hrev : (u ++ c :: w).reverse = w.reverse ++ c :: u.reverse := by simp
  rw [hrev, findAux_append_cons (by simpa using h)]
  show (((u ++ c :: w).length - 1 - w.reverse.length : Nat) : Int) = (u.length : Int)
  have hlen : (u ++ c :: w).length - 1 - w.reverse.length = u.length := by
    simp only [List.length_append, List.length_reverse, List.length_cons]
    omega
  rw [hlen]

theorem py_rfind_of_not_mem {c : Char} {cs : PyStr} (h : c ∉ cs) : py_rfind cs c = -1 := by
  unfold py_rfind
  rw [findAux_of_not_mem (by simpa using h)]

theorem extract_json_noJson_of_missing {cs : PyStr} (h : lbrace ∉ cs ∨ rbrace ∉ cs) :
    extract_json cs = .noJson := by
  unfold extract_json
  rcases h with h | h
  · rw [py_find_of_not_mem h]
    simp
  · rw [py_rfind_of_not_mem h]
    simp

theorem extract_json_structured {p q u w : PyStr}
    (hp : lbrace ∉ p) (hw : rbrace ∉ w)
    (heq : p ++ lbrace :: q = u ++ rbrace :: w) :
    extract_json (p ++ lbrace :: q) =
      (match json_loads ((lbrace :: q).take (u.length + 1 - p.length)) with
       | some v => .parsed v
       | none => .malformed ((lbrace :: q).take (u.length + 1 - p.length))) := by
  unfold extract_json
  rw [py_find_append_cons hp]
  rw [show py_rfind (p ++ lbrace :: q) rbrace = (u.length : Int) from
    heq ▸ py_rfind_append_cons hw]
  rw [if_neg (by omega)]
  have h1 : ((p.length : Int)).toNat = p.length := Int.toNat_natCast p.length
  have h2 : ((u.length : Int) + 1).toNat = u.length + 1 := by
    rw [show ((u.length : Int) + 1) = ((u.length + 1 : Nat) : Int) by push_cast; ring]
    exact Int.toNat_natCast _
  rw [h1, h2]
  unfold pySlice
  rw [List.drop_left]

/-- Dispatch events, for counting. -/
def isDispatch : AnalyzeEvent → Bool
  | .dispatch => true
  | _ => false

theorem analyzeGo_succ (out : Nat → CallOutcome) (base a r : Nat) :
    analyzeGo out base a (r + 1) =
      (match out a with
       | .rateLimited d =>
         if r = 0 then (.error .rateLimitExceeded, [.dispatch])
         else
           ((analyzeGo out base (a + 1) r).1,
             .dispatch :: .sleep (wait_with_backoff a base d) ::
               (analyzeGo out base (a + 1) r).2)
       | .invalidArgument => (.error .invalidRequest, [.dispatch])
       | .otherError tag =>
         if r = 0 then (.error (.otherFailure tag), [.dispatch])
         else
           ((analyzeGo out base (a + 1) r).1,
             .dispatch :: .sleep 5 :: (analyzeGo out base (a + 1) r).2)
       | .responseText s =>
         match extract_json s with
         | .noJson =>
           if r = 0 then (.error .noValidJson, [.dispatch])
           else
             ((analyzeGo out base (a + 1) r).1,
               .dispatch :: .sleep 5 :: (analyzeGo out base (a + 1) r).2)
         | .malformed _ =>
           if r = 0 then (.error .invalidJsonResponse, [.dispatch])
           else
             ((analyzeGo out base (a + 1) r).1,
               .dispatch :: .sleep 5 :: (analyzeGo out base (a + 1) r).2)
         | .parsed v => (.ok v, [.dispatch])) := rfl

theorem wait_with_backoff_eq (a base : Nat) (d : Option PyStr) :
    wait_with_backoff a base d = effectiveBase d base * 2 ^ a := rfl

theorem analyzeGo_rateLimited_all (out : Nat → CallOutcome) (dets : Nat → Option PyStr)
    (base : Nat) (hout : ∀ k, out k = .rateLimited (dets k)) :
    ∀ (r a : Nat),
      analyzeGo out base a (r + 1) =
        (.error .rateLimitExceeded,
          (List.range' a r).flatMap
            (fun k => [.dispatch, .sleep (effectiveBase (dets k) base * 2 ^ k)]) ++
            [.dispatch]) := by
  intro r
  induction r with
  | zero =>
    intro a
    rw [analyzeGo_succ, hout a]
    dsimp only
    simp
  | succ r ih =>
    intro a
    rw [analyzeGo_succ, hout a]
    dsimp only
    rw [if_neg (Nat.succ_ne_zero r), ih (a + 1), wait_with_backoff_eq]
    simp [List.range'_succ]

theorem analyzeGo_other_all (out : Nat → CallOutcome) (tags : Nat → PyStr)
    (base : Nat) (hout : ∀ k, out k = .otherError (tags k)) :
    ∀ (r a : Nat),
      analyzeGo out base a (r + 1) =
        (.error (.otherFailure (tags (a + r))),
          (List.range' a r).flatMap (fun _ => [.dispatch, .sleep 5]) ++ [.dispatch]) := by
  intro r
  induction r with
  | zero =>
    intro a
    rw [analyzeGo_succ, hout a]
    dsimp only
    simp
  | succ r ih =>
    intro a
    rw [analyzeGo_succ, hout a]
    dsimp only
    rw [if_neg (Nat.succ_ne_zero r), ih (a + 1)]
    rw [show a + 1 + r = a + (r + 1) from by omega]
    simp [List.range'_succ]

theorem analyzeGo_noJson_all (out : Nat → CallOutcome) (texts : Nat → PyStr)
    (base : Nat) (hout : ∀ k, out k = .responseText (texts k))
    (hext : ∀ k, extract_json (texts k) = .noJson) :
    ∀ (r a : Nat),
      analyzeGo out base a (r + 1) =
        (.error .noValidJson,
          (List.range' a r).flatMap (fun _ => [.dispatch, .sleep 5]) ++ [.dispatch]) := by
  intro r
  induction r with
  | zero =>
    intro a
    rw [analyzeGo_succ, hout a]
    dsimp only
    rw [hext a]
    dsimp only
    simp
  | succ r ih =>
    intro a
    rw [analyzeGo_succ, hout a]
    dsimp only
    rw [hext a]
    dsimp only
    rw [if_neg (Nat.succ_ne_zero r), ih (a + 1)]
    simp [List.range'_succ]

theorem analyzeGo_malformed_all (out : Nat → CallOutcome) (texts : Nat → PyStr)
    (subs : Nat → PyStr) (base : Nat) (hout : ∀ k, out k = .responseText (texts k))
    (hext : ∀ k, extract_json (texts k) = .malformed (subs k)) :
    ∀ (r a : Nat),
      analyzeGo out base a (r + 1) =
        (.error .invalidJsonResponse,
          (List.range' a r).flatMap (fun _ => [.dispatch, .sleep 5]) ++ [.dispatch]) := by
  intro r
  induction r with
  | zero =>
    intro a
    rw [analyzeGo_succ, hout a]
    dsimp only
    rw [hext a]
    dsimp only
    simp
  | succ r ih =>
    intro a
    rw [analyzeGo_succ, hout a]
    dsimp only
    rw [hext a]
    dsimp only
    rw [if_neg (Nat.succ_ne_zero r), ih (a + 1)]
    simp [List.range'_succ]

theorem analyzeGo_parsed (out : Nat → CallOutcome) (base a r : Nat) (s : PyStr) (v : Json)
    (hout : out a = .responseText s) (hext : extract_json s = .parsed v) :
    analyzeGo out base a (r + 1) = (.ok v, [.dispatch]) := by
  rw [analyzeGo_succ, hout]
  dsimp only
  rw [hext]

theorem countP_isDispatch_trace (g : Nat → Nat) (l : List Nat) :
    ((l.flatMap (fun k => [AnalyzeEvent.dispatch, AnalyzeEvent.sleep (g k)])) ++
        [AnalyzeEvent.dispatch]).countP (fun e => isDispatch e) = l.length + 1 := by
  induction l with
  | nil => rfl
  | cons x t ih =>
    simp only [List.flatMap_cons, List.cons_append, List.countP_cons, List.append_assoc,
      List.nil_append, List.length_cons]
    rw [ih]
    simp [isDispatch]

theorem analyzeGo_invalid_after_others (out : Nat → CallOutcome) (tags : Nat → PyStr)
    (base k m : Nat)
    (hbefore : ∀ j, j < k → out j = .otherError (tags j))
    (hk : out k = .invalidArgument) :
    ∀ (c a : Nat), a + c = k →
      analyzeGo out base a (c + m + 1) =
        (.error .invalidRequest,
          (List.range' a c).flatMap (fun _ => [.dispatch, .sleep 5]) ++ [.dispatch]) := by
  intro c
  induction c with
  | zero =>
    intro a ha
    have ha' : a = k := by omega
    rw [analyzeGo_succ, ha', hk]
    dsimp only
    simp
  | succ c ih =>
    intro a ha
    rw [analyzeGo_succ, hbefore a (by omega)]
    dsimp only
    rw [if_neg (by omega : ¬c + 1 + m = 0)]
    rw [show c + 1 + m = c + m + 1 from by omega, ih (a + 1) (by omega)]
    simp [List.range'_succ]

/-- C1: with every dispatch classified `RateLimited` (resource
exhaustion), an attempt cap of `N + 1 ≥ 1` performs exactly `N + 1`
dispatch calls and then raises the rate-limit error as fatal; the delay
slept before the `k`-th retry (the sleep after attempt index `k - 1`)
equals `base * 2 ^ (k - 1)`, where the base is the configured default
unless the error's detail text embeds a parsed `retry_delay` suggested
interval, in which case the parsed interval replaces the base in the
formula (`effectiveBase`). -/
theorem C1_rate_limit_backoff (N base : Nat) (dets : Nat → Option PyStr) :
    analyze (fun k => .rateLimited (dets k)) (N + 1) base =
      (.error .rateLimitExceeded,
        (List.range N).flatMap
          (fun k => [.dispatch, .sleep (effectiveBase (dets k) base * 2 ^ k)]) ++
          [.dispatch]) ∧
    ((List.range N).flatMap
        (fun k => [AnalyzeEvent.dispatch, .sleep (effectiveBase (dets k) base * 2 ^ k)]) ++
        [AnalyzeEvent.dispatch]).countP (fun e => isDispatch e) = N + 1 ∧
    ∀ k, wait_with_backoff k base (dets k) = effectiveBase (dets k) base * 2 ^ k := by
  refine ⟨?_, ?_, fun k => rfl⟩
  · unfold analyze
    rw [analyzeGo_rateLimited_all _ dets base (fun _ => rfl) N 0]
    rw [List.range_eq_range']
  · have h := countP_isDispatch_trace (fun k => effectiveBase (dets k) base * 2 ^ k)
      (List.range N)
    simpa using h

/-- C9: during analysis an `InvalidArgument` (malformed-call) error is
propagated immediately, with no retry and no backoff sleep after its
dispatch, regardless of the attempts remaining; any other unexpected
exception is retried after a fixed 5-second sleep while attempts remain,
and once attempts are exhausted the error raised by the final attempt is
propagated to the caller. -/
theorem C9_invalid_and_transient (base : Nat) (tags : Nat → PyStr) :
    (∀ N, analyze (fun j => .otherError (tags j)) (N + 1) base =
        (.error (.otherFailure (tags N)),
          (List.range N).flatMap (fun _ => [.dispatch, .sleep 5]) ++ [.dispatch])) ∧
    (∀ k m, analyze (fun j => if j = k then .invalidArgument else .otherError (tags j))
        (k + m + 1) base =
        (.error .invalidRequest,
          (List.range k).flatMap (fun _ => [.dispatch, .sleep 5]) ++ [.dispatch])) := by
  constructor
  · intro N
    unfold analyze
    rw [analyzeGo_other_all _ tags base (fun _ => rfl) N 0]
    rw [List.range_eq_range']
    simp
  · intro k m
    unfold analyze
    rw [analyzeGo_invalid_after_others
      (fun j => if j = k then .invalidArgument else .otherError (tags j)) tags base k m
      (fun j hj => by simp only []; rw [if_neg (by omega)]) (by simp) k 0 (by omega)]
    rw [List.range_eq_range']

/-- C2 counterexample: the text `"\x7d a \x7b"` has its only `\x7b` after
its only `\x7d`, so the span between the first `\x7b` and the last `\x7d`
is empty; the claim says extraction classifies this as `Success-NoJSON`,
but the guard `start_idx == -1 or end_idx == 0` does not fire and the
empty slice goes to the JSON reader, which fails, so the attempt is
classified `Success-MalformedJSON` instead. -/
theorem C2_counterexample_empty_span :
    extract_json ("\x7d a \x7b".toList) = .malformed [] ∧
    extract_json ("\x7d a \x7b".toList) ≠ .noJson := by
  constructor
  · rfl
  · intro h
    rw [show extract_json ("\x7d a \x7b".toList) = .malformed [] from rfl] at h
    exact ExtractResult.noConfusion h

/-- C2 (amended): for every response text that contains no `\x7b` or no
`\x7d`, the extraction step classifies the attempt as `Success-NoJSON`
(classification is a total function and never throws), the loop retries
with a fixed 5-second sleep while attempts remain, and it raises the
no-valid-JSON fatal error only after exhausting all attempts.  If both
braces occur but the last `\x7d` precedes the first `\x7b`, the span is
empty yet the guard does not fire: the empty slice fails to parse and the
attempt is classified `Success-MalformedJSON` instead of
`Success-NoJSON`. -/
theorem C2_amended_noJson :
    (∀ s : PyStr, (lbrace ∉ s ∨ rbrace ∉ s) →
      extract_json s = .noJson ∧
      ∀ N base, analyze (fun _ => .responseText s) (N + 1) base =
        (.error .noValidJson,
          (List.range N).flatMap (fun _ => [.dispatch, .sleep 5]) ++ [.dispatch])) ∧
    (∀ p q u w : PyStr, lbrace ∉ p → rbrace ∉ w →
      p ++ lbrace :: q = u ++ rbrace :: w → u.length < p.length →
      extract_json (p ++ lbrace :: q) = .malformed []) := by
  constructor
  · intro s h
    have hx := extract_json_noJson_of_missing h
    refine ⟨hx, fun N base => ?_⟩
    unfold analyze
    rw [analyzeGo_noJson_all _ (fun _ => s) base (fun _ => rfl) (fun _ => hx) N 0]
    rw [List.range_eq_range']
  · intro p q u w hp hw heq hlt
    rw [extract_json_structured hp hw heq]
    rw [show u.length + 1 - p.length = 0 from by omega]
    rfl

/-- C2 witness: a brace-free text is classified `noJson` and, with a cap
of two attempts, the loop dispatches twice with one 5-second sleep and
raises the no-valid-JSON error; the empty-span text is classified
malformed. -/
theorem C2_amended_noJson_witness :
    (extract_json ("no json here".toList) = .noJson ∧
     analyze (fun _ => .responseText ("no json here".toList)) 2 10 =
       (.error .noValidJson, [.dispatch, .sleep 5, .dispatch])) ∧
    extract_json ("\x7d a ".toList ++ lbrace :: []) = .malformed [] := by
  refine ⟨⟨(C2_amended_noJson.1 _ (by decide)).1, ?_⟩, ?_⟩
  · rw [show (2 : Nat) = 1 + 1 from rfl, (C2_amended_noJson.1 ("no json here".toList)
      (by decide)).2 1 10]
    rfl
  · exact C2_amended_noJson.2 ("\x7d a ".toList) [] [] (" a \x7b".toList)
      (by decide) (by decide) (by decide) (by decide)

theorem get_documents_inv :
    ∀ (events : List DocEvent) (acc : List UploadedDocument),
      (∀ d ∈ acc, d.file_uri.isSome = true) →
      ∀ docs, get_documents events acc = some (.ok docs) →
        docs ≠ [] ∧ ∀ d ∈ docs, d.file_uri.isSome = true := by
  intro events
  induction events with
  | nil =>
    intro acc hacc docs h
    exact absurd h (by simp [get_documents])
  | cons e rest ih =>
    intro acc hacc docs h
    cases e with
    | cancel =>
      rw [get_documents] at h
      by_cases he : acc.isEmpty
      · rw [if_pos he] at h
        exact ih acc hacc docs h
      · rw [if_neg he] at h
        unfold finishDocs at h
        rw [if_neg he] at h
        have hd : acc = docs := by
          injection h with h1
          injection h1
        subst hd
        refine ⟨?_, hacc⟩
        intro hnil
        exact he (by simp [hnil])
    | select path dtype upload more =>
      cases upload with
      | none =>
        rw [get_documents] at h
        exact ih acc hacc docs h
      | some uri =>
        rw [get_documents] at h
        have hacc2 : ∀ d ∈ acc ++ [⟨path, dtype, some uri⟩], d.file_uri.isSome = true := by
          intro d hd
          rcases List.mem_append.mp hd with hd | hd
          · exact hacc d hd
          · simp only [List.mem_singleton] at hd
            subst hd
            rfl
        by_cases hm : more = true
        · rw [if_pos hm] at h
          exact ih _ hacc2 docs h
        · rw [if_neg hm] at h
          unfold finishDocs at h
          rw [if_neg (by simp)] at h
          have hd : acc ++ [⟨path, dtype, some uri⟩] = docs := by
            injection h with h1
            injection h1
          subst hd
          exact ⟨by simp, hacc2⟩

/-- C5: every list of documents returned by the collection loop is
non-empty and every document in it carries a remote handle (`file_uri`):
a document whose upload failed is never appended, so it is excluded from
the request whose prompt lists exactly these documents, and the post-loop
guard exits the workflow instead of returning when the collection is
empty. -/
theorem C5_documents_have_handles (events : List DocEvent)
    (docs : List UploadedDocument)
    (h : get_documents events [] = some (.ok docs)) :
    docs ≠ [] ∧ ∀ d ∈ docs, d.file_uri.isSome = true :=
  get_documents_inv events [] (by simp) docs h

/-- C5 witness: one successful upload produces a singleton collection
whose only document carries the returned handle. -/
theorem C5_documents_have_handles_witness :
    ([⟨"plan.pdf".toList, "Site Plan".toList, some ("files/u1".toList)⟩] :
        List UploadedDocument) ≠ [] ∧
    ∀ d ∈ ([⟨"plan.pdf".toList, "Site Plan".toList, some ("files/u1".toList)⟩] :
        List UploadedDocument), d.file_uri.isSome = true :=
  C5_documents_have_handles
    [.select ("plan.pdf".toList) ("Site Plan".toList) (some ("files/u1".toList)) false]
    _ rfl

/-- The workflow phases up to and including document collection all
completed, so `documents` is bound in `run`. -/
def docsReached (scr : RunScript) : Bool :=
  scr.connOk && (scr.infoOutcome == .ok) && (scr.docsOutcome == .ok)

/-- The one schedule shape on which cleanup runs twice: every phase up to
report generation succeeds and a `KeyboardInterrupt` arrives during the
report phase, so the `finally` block and the outer interrupt handler each
invoke `cleanup_files`. -/
def doubleCleanup (scr : RunScript) : Bool :=
  docsReached scr && (scr.postDocsOutcome == .ok) && scr.proceed &&
    (scr.fetchOutcome == .ok) && (scr.analyzeOutcome == .ok) &&
    (scr.reportOutcome == .intr)

/-- C6 (amended): on every exit path the deletion log of `run` is empty
when the workflow ends before documents are bound, and otherwise contains
each uploaded handle exactly once — except on the one path where a
`KeyboardInterrupt` arrives during the report phase, where the `finally`
block and the outer interrupt handler both run cleanup, so each handle is
deleted exactly twice. -/
theorem C6_amended_cleanup (scr : RunScript) (docs : List UploadedDocument) :
    (runWorkflow scr docs).1 =
      (if docsReached scr then
        (if doubleCleanup scr then cleanup_files docs ++ cleanup_files docs
         else cleanup_files docs)
       else []) := by
  rcases scr with ⟨conn, info, docsO, post, pr, fe, an, rep⟩
  cases conn <;> cases info <;> cases docsO <;> cases post <;> cases pr <;>
    cases fe <;> cases an <;> cases rep <;> rfl

/-- C6 counterexample: with one uploaded document and an interrupt during
the report phase, the remote deletion of its handle is invoked twice, not
exactly once as the claim states. -/
theorem C6_counterexample_double_delete :
    ((runWorkflow ⟨true, .ok, .ok, .ok, true, .ok, .ok, .intr⟩
        [⟨"plan.pdf".toList, "Site Plan".toList, some ("files/u1".toList)⟩]).1.count
      ("files/u1".toList)) = 2 ∧
    ((runWorkflow ⟨true, .ok, .ok, .ok, true, .ok, .ok, .intr⟩
        [⟨"plan.pdf".toList, "Site Plan".toList, some ("files/u1".toList)⟩]).1.count
      ("files/u1".toList)) ≠ 1 := by
  constructor
  · rfl
  · decide

/-- C8: framework content longer than the fixed maximum of 1000
characters is truncated to its first 1000 characters with the truncation
marker appended; content of at most 1000 characters is embedded
unchanged; the embedded text is always at most 1020 characters regardless
of the content provider's output, and the frameworks block of the prompt
embeds exactly the truncated content. -/
theorem C8_truncate_bounds (c : PyStr) :
    (c.length > max_framework_length →
      truncate_content c = c.take 1000 ++ "\n[Content truncated]".toList) ∧
    (c.length ≤ max_framework_length → truncate_content c = c) ∧
    (truncate_content c).length ≤ 1020 ∧
    ∀ name, frameworks_text [(name, c)] =
      "\n**".toList ++ name ++ ":**\n".toList ++ truncate_content c ++ "\n".toList := by
  refine ⟨fun h => ?_, fun h => ?_, ?_, fun name => ?_⟩
  · unfold truncate_content
    rw [if_pos h]
    rfl
  · unfold truncate_content
    rw [if_neg (by omega)]
  · unfold truncate_content max_framework_length
    split
    · rw [List.length_append]
      have h1 : (c.take 1000).length ≤ 1000 := by
        simp [List.length_take]
      have h2 : ("\n[Content truncated]".toList).length = 20 := rfl
      omega
    · omega
  · simp [frameworks_text]

/-- C8 witness: a 1001-character content is cut to its first 1000
characters plus the marker; a 5-character content is embedded unchanged. -/
theorem C8_truncate_bounds_witness :
    truncate_content (List.replicate 1001 'x') =
      List.replicate 1000 'x' ++ "\n[Content truncated]".toList ∧
    truncate_content ("short".toList) = "short".toList := by
  constructor
  · have h := (C8_truncate_bounds (List.replicate 1001 'x')).1
      (by simp only [List.length_replicate, max_framework_length]; omega)
    rw [h, List.take_replicate]
    norm_num
  · exact (C8_truncate_bounds ("short".toList)).2.1 (by decide)

/-- C3: for a response whose first `\x7b` is at index `i = p.length` and
last `\x7d` at index `j = u.length` with `i ≤ j`, extraction attempts a
structured parse of exactly the inclusive substring from `i` to `j`; if
that substring parses, the parsed object is returned and the loop
succeeds on its first attempt, and if it fails, the attempt is classified
`Success-MalformedJSON` and retried with a fixed 5-second delay while
attempts remain, raising the invalid-JSON fatal error once attempts are
exhausted.  Consequently a response wrapping a parsable brace-delimited
JSON body in commentary (no `\x7b` before it, no `\x7d` after it) yields
exactly the body's object. -/
theorem C3_slice_and_parse :
    (∀ p q u w : PyStr, lbrace ∉ p → rbrace ∉ w →
      p ++ lbrace :: q = u ++ rbrace :: w → p.length ≤ u.length →
      ((∀ v, json_loads ((lbrace :: q).take (u.length + 1 - p.length)) = some v →
         extract_json (p ++ lbrace :: q) = .parsed v ∧
         ∀ N base, analyze (fun _ => .responseText (p ++ lbrace :: q)) (N + 1) base =
           (.ok v, [.dispatch])) ∧
       (json_loads ((lbrace :: q).take (u.length + 1 - p.length)) = none →
         extract_json (p ++ lbrace :: q) =
           .malformed ((lbrace :: q).take (u.length + 1 - p.length)) ∧
         ∀ N base, analyze (fun _ => .responseText (p ++ lbrace :: q)) (N + 1) base =
           (.error .invalidJsonResponse,
             (List.range N).flatMap (fun _ => [.dispatch, .sleep 5]) ++ [.dispatch])))) ∧
    (∀ (pre bi post : PyStr) (v : Json), lbrace ∉ pre → rbrace ∉ post →
      json_loads (lbrace :: (bi ++ [rbrace])) = some v →
      extract_json (pre ++ (lbrace :: (bi ++ [rbrace])) ++ post) = .parsed v) := by
  have main : ∀ p q u w : PyStr, lbrace ∉ p → rbrace ∉ w →
      p ++ lbrace :: q = u ++ rbrace :: w → p.length ≤ u.length →
      ((∀ v, json_loads ((lbrace :: q).take (u.length + 1 - p.length)) = some v →
         extract_json (p ++ lbrace :: q) = .parsed v ∧
         ∀ N base, analyze (fun _ => .responseText (p ++ lbrace :: q)) (N + 1) base =
           (.ok v, [.dispatch])) ∧
       (json_loads ((lbrace :: q).take (u.length + 1 - p.length)) = none →
         extract_json (p ++ lbrace :: q) =
           .malformed ((lbrace :: q).take (u.length + 1 - p.length)) ∧
         ∀ N base, analyze (fun _ => .responseText (p ++ lbrace :: q)) (N + 1) base =
           (.error .invalidJsonResponse,
             (List.range N).flatMap (fun _ => [.dispatch, .sleep 5]) ++ [.dispatch]))) := by
    intro p q u w hp hw heq _hle
    constructor
    · intro v hv
      have hx : extract_json (p ++ lbrace :: q) = .parsed v := by
        rw [extract_json_structured hp hw heq, hv]
      refine ⟨hx, fun N base => ?_⟩
      unfold analyze
      exact analyzeGo_parsed _ base 0 N _ v rfl hx
    · intro hv
      have hx : extract_json (p ++ lbrace :: q) =
          .malformed ((lbrace :: q).take (u.length + 1 - p.length)) := by
        rw [extract_json_structured hp hw heq, hv]
      refine ⟨hx, fun N base => ?_⟩
      unfold analyze
      rw [analyzeGo_malformed_all _ (fun _ => p ++ lbrace :: q)
        (fun _ => (lbrace :: q).take (u.length + 1 - p.length)) base
        (fun _ => rfl) (fun _ => hx) N 0]
      rw [List.range_eq_range']
  refine ⟨main, ?_⟩
  intro pre bi post v hpre hpost hv
  have heq : pre ++ lbrace :: ((bi ++ [rbrace]) ++ post) =
      (pre ++ lbrace :: bi) ++ rbrace :: post := by simp
  have h := (main pre ((bi ++ [rbrace]) ++ post) (pre ++ lbrace :: bi) post
    hpre hpost heq (by simp)).1
  have hsub : (lbrace :: ((bi ++ [rbrace]) ++ post)).take
      ((pre ++ lbrace :: bi).length + 1 - pre.length) = lbrace :: (bi ++ [rbrace]) := by
    have hlen : (pre ++ lbrace :: bi).length + 1 - pre.length = bi.length + 2 := by
      simp only [List.length_append, List.length_cons]
      omega
    rw [hlen]
    have hshape : lbrace :: ((bi ++ [rbrace]) ++ post) =
        (lbrace :: (bi ++ [rbrace])) ++ post := by simp
    rw [hshape]
    have hlen2 : (lbrace :: (bi ++ [rbrace])).length = bi.length + 2 := by simp
    rw [← hlen2, List.take_left]
  rw [hsub] at h
  have h2 := (h v hv).1
  have hassoc : pre ++ (lbrace :: (bi ++ [rbrace])) ++ post =
      pre ++ lbrace :: ((bi ++ [rbrace]) ++ post) := by simp
  rw [hassoc]
  exact h2

/-- C3 witness: a concrete response `ab` + body + ` cd` with body
`\x7b"k": true\x7d` extracts the parsed object. -/
theorem C3_slice_and_parse_witness :
    extract_json ("ab".toList ++ (lbrace :: ("\"k\": true".toList ++ [rbrace])) ++
        " cd".toList) = .parsed (.obj [("k".toList, .bool true)]) :=
  C3_slice_and_parse.2 ("ab".toList) ("\"k\": true".toList) (" cd".toList)
    (.obj [("k".toList, .bool true)]) (by decide) (by decide) rfl

theorem parseVal_lbrace_obj :
    ∀ (f : Nat) (l : PyStr) (v : Json) (rest : PyStr),
      parseVal f (lbrace :: l) = some (v, rest) → ∃ ms, v = .obj ms := by
  intro f l v rest h
  match f with
  | 0 => simp [parseVal] at h
  | f + 1 =>
    rw [parseVal] at h
    have hsk : skipWs (lbrace :: l) = lbrace :: l := by
      rw [skipWs, if_neg (by decide)]
    rw [hsk] at h
    dsimp only at h
    rw [if_pos rfl] at h
    cases hsk2 : skipWs l with
    | nil =>
      rw [hsk2] at h
      exact absurd h (by simp)
    | cons c2 r2 =>
      rw [hsk2] at h
      dsimp only at h
      by_cases hc2 : c2 = rbrace
      · rw [if_pos hc2] at h
        simp only [Option.some.injEq, Prod.mk.injEq] at h
        exact ⟨[], h.1.symm⟩
      · rw [if_neg hc2] at h
        cases hpm : parseMembers f (c2 :: r2) with
        | none =>
          rw [hpm] at h
          exact absurd h (by simp)
        | some pr =>
          obtain ⟨ms, r3⟩ := pr
          rw [hpm] at h
          simp only [Option.some.injEq, Prod.mk.injEq] at h
          exact ⟨ms, h.1.symm⟩

theorem json_loads_lbrace_obj (l : PyStr) (v : Json)
    (h : json_loads (lbrace :: l) = some v) : ∃ ms, v = .obj ms := by
  unfold json_loads at h
  cases hp : parseVal ((lbrace :: l).length + 1) (lbrace :: l) with
  | none =>
    rw [hp] at h
    exact absurd h (by simp)
  | some pr =>
    obtain ⟨w, rest⟩ := pr
    rw [hp] at h
    dsimp only at h
    by_cases hw : skipWs rest = []
    · rw [if_pos hw] at h
      simp only [Option.some.injEq] at h
      subst h
      exact parseVal_lbrace_obj _ _ _ _ hp
    · rw [if_neg hw] at h
      exact absurd h (by simp)

theorem extract_parsed_obj (cs : PyStr) (v : Json)
    (h : extract_json cs = .parsed v) : ∃ ms, v = .obj ms := by
  unfold extract_json at h
  by_cases hg : py_find cs lbrace = -1 ∨ py_rfind cs rbrace + 1 = 0
  · rw [if_pos hg] at h
    exact ExtractResult.noConfusion h
  · rw [if_neg hg] at h
    cases hfa : findAux lbrace cs with
    | none =>
      exact absurd (Or.inl (by unfold py_find; rw [hfa])) hg
    | some i =>
      obtain ⟨p, q, hcs, hlen, _⟩ := findAux_eq_some hfa
      have hpf : py_find cs lbrace = (i : Int) := by unfold py_find; rw [hfa]
      rw [hpf, Int.toNat_natCast] at h
      unfold pySlice at h
      have hdrop : cs.drop i = lbrace :: q := by
        rw [hcs, ← hlen]
        exact List.drop_left p _
      rw [hdrop] at h
      cases hcase : (py_rfind cs rbrace + 1).toNat - i with
      | zero =>
        rw [hcase] at h
        exact ExtractResult.noConfusion h
      | succ m =>
        rw [hcase, List.take_succ_cons] at h
        dsimp only at h
        cases hjl : json_loads (lbrace :: q.take m) with
        | none =>
          rw [hjl] at h
          exact ExtractResult.noConfusion h
        | some w =>
          rw [hjl] at h
          dsimp only at h
          have hwv : w = v := by injection h
          subst hwv
          exact json_loads_lbrace_obj _ _ hjl

theorem analyzeGo_ok_obj :
    ∀ (r a : Nat) (out : Nat → CallOutcome) (base : Nat) (v : Json)
      (evs : List AnalyzeEvent),
      analyzeGo out base a r = (.ok v, evs) → ∃ ms, v = .obj ms := by
  intro r
  induction r with
  | zero =>
    intro a out base v evs h
    exact absurd h (by simp [analyzeGo])
  | succ r ih =>
    intro a out base v evs h
    rw [analyzeGo_succ] at h
    cases hout : out a with
    | rateLimited d =>
      rw [hout] at h
      dsimp only at h
      by_cases hr : r = 0
      · rw [if_pos hr] at h
        simp at h
      · rw [if_neg hr] at h
        have h1 : (analyzeGo out base (a + 1) r).1 = .ok v := by
          have := congrArg Prod.fst h
          simpa using this
        exact ih (a + 1) out base v (analyzeGo out base (a + 1) r).2 (by rw [← h1])
    | invalidArgument =>
      rw [hout] at h
      simp at h
    | otherError tag =>
      rw [hout] at h
      dsimp only at h
      by_cases hr : r = 0
      · rw [if_pos hr] at h
        simp at h
      · rw [if_neg hr] at h
        have h1 : (analyzeGo out base (a + 1) r).1 = .ok v := by
          have := congrArg Prod.fst h
          simpa using this
        exact ih (a + 1) out base v (analyzeGo out base (a + 1) r).2 (by rw [← h1])
    | responseText s =>
      rw [hout] at h
      dsimp only at h
      cases hext : extract_json s with
      | noJson =>
        rw [hext] at h
        dsimp only at h
        by_cases hr : r = 0
        · rw [if_pos hr] at h
          simp at h
        · rw [if_neg hr] at h
          have h1 : (analyzeGo out base (a + 1) r).1 = .ok v := by
            have := congrArg Prod.fst h
            simpa using this
          exact ih (a + 1) out base v (analyzeGo out base (a + 1) r).2 (by rw [← h1])
      | malformed sub =>
        rw [hext] at h
        dsimp only at h
        by_cases hr : r = 0
        · rw [if_pos hr] at h
          simp at h
        · rw [if_neg hr] at h
          have h1 : (analyzeGo out base (a + 1) r).1 = .ok v := by
            have := congrArg Prod.fst h
            simpa using this
          exact ih (a + 1) out base v (analyzeGo out base (a + 1) r).2 (by rw [← h1])
      | parsed w =>
        rw [hext] at h
        simp only [Prod.mk.injEq, Except.ok.injEq] at h
        exact h.1 ▸ extract_parsed_obj s w hext

/-- C10: whenever the analysis loop returns normally, the returned value
is a JSON object (a dictionary), never a list, string or number: the
slice handed to the reader always begins at the first `\x7b`, so any
successful parse necessarily yields a top-level object. -/
theorem C10_result_is_object (out : Nat → CallOutcome) (max_retries base : Nat)
    (v : Json) (evs : List AnalyzeEvent)
    (h : analyze out max_retries base = (.ok v, evs)) : ∃ ms, v = .obj ms :=
  analyzeGo_ok_obj max_retries 0 out base v evs h

/-- C10 witness: a run that succeeds on its first attempt returns a
top-level object. -/
theorem C10_result_is_object_witness :
    ∃ ms, Json.obj [("a".toList, Json.num 1)] = .obj ms :=
  C10_result_is_object (fun _ => .responseText ("x \x7b\"a\": 1\x7d y".toList)) 1 10
    (.obj [("a".toList, .num 1)]) [.dispatch] rfl

/-- C7 counterexample: an AnalysisResult-shaped mapping whose framework
entry lacks the list field `relevantPolicies` makes report generation
fail with a KeyError instead of treating the absent list as empty, so the
renderer does not tolerate absence of every list field. -/
theorem C7_counterexample_missing_list :
    generate_report ⟨"1 Main St".toList, "Residential - New Build".toList, none, none⟩
        ("date".toList)
        [("aiReviewFramework".toList,
          .arr [.obj [("framework".toList, .str ("NPPF".toList)),
                      ("keyConsiderations".toList, .str ("K".toList))]])] =
      .error ("KeyError: relevantPolicies".toList) := rfl

/-- C7 (amended): report generation tolerates absence of any of the four
top-level fields (the three lists default to empty and the summary to the
empty string), tolerates any status value outside the recognized
three-value set (the per-row status colour is computed but never used, so
every status receives the same treatment: its raw text is embedded in the
summary table and the detail paragraph), and an input with all optional
arrays empty still produces a story.  Per-entry fields, however, are
indexed directly, so a missing inner list field such as
`relevantPolicies` raises a KeyError (see the counterexample); only
`recommendations` is read with a default. -/
theorem C7_amended_renderer_tolerance :
    (∀ (req : ProjectInfoM) (today : PyStr),
      (generate_report req today []).isOk = true) ∧
    (∀ (req : ProjectInfoM) (today : PyStr),
      (generate_report req today
        [("aiReviewFramework".toList, .arr []),
         ("planByPlanReview".toList, .arr []),
         ("policyCompatibilitySummary".toList, .arr []),
         ("aiRecommendationSummary".toList, .str [])]).isOk = true) ∧
    (∀ (req : ProjectInfoM) (today st : PyStr),
      generate_report req today
        [("policyCompatibilitySummary".toList,
          .arr [.obj [("policyArea".toList, .str ("Area".toList)),
                      ("status".toList, .str st),
                      ("details".toList, .str ("Det".toList))]])] =
      .ok
        [RItem.par ("ARCHOPINION".toList),
         RItem.par ("AI Architectural Review Report".toList),
         RItem.spacer,
         RItem.par ("Project Information".toList),
         RItem.tbl [["Address:".toList, req.address],
                    ["Project Type:".toList, req.project_type],
                    ["Local Authority:".toList,
                      orDefaultStr req.council ("Not specified".toList)],
                    ["Planning Reference:".toList,
                      orDefaultStr req.planning_reference ("None".toList)],
                    ["Analysis Date:".toList, today]],
         RItem.spacer,
         RItem.par ("Regulatory Framework Analysis".toList),
         RItem.pageBreak,
         RItem.par ("Plan-by-Plan Review".toList),
         RItem.pageBreak,
         RItem.par ("Policy Compatibility Summary".toList),
         RItem.tbl [["Policy Area".toList, "Status".toList, "Details".toList],
                    ["Area".toList, st, "Det".toList]],
         RItem.spacer,
         RItem.par ("Area".toList),
         RItem.par ("<b>Status:</b> ".toList ++ st),
         RItem.par ("<b>Details:</b> ".toList ++ "Det".toList),
         RItem.spacer,
         RItem.pageBreak,
         RItem.par ("AI Recommendations Summary".toList),
         RItem.spacer,
         RItem.par disclaimerText]) :=
  ⟨fun _ _ => rfl, fun _ _ => rfl, fun _ _ _ => rfl⟩

/-- The suffix following a serialized value never starts with a decimal
digit (so number reading stops at the value boundary). -/
def noLeadDigit : PyStr → Bool
  | [] => true
  | c :: _ => !(isDigitCh c)

theorem isDigitCh_ne {c : Char} (x : Char) (h : isDigitCh c = true)
    (hx : isDigitCh x = false) : c ≠ x := by
  intro he
  rw [he, hx] at h
  exact Bool.noConfusion h

theorem isJsonWs_of_digit {c : Char} (h : isDigitCh c = true) : isJsonWs c = false := by
  cases hw : isJsonWs c with
  | false => rfl
  | true =>
    exfalso
    simp only [isJsonWs, Bool.or_eq_true, decide_eq_true_eq] at hw
    rcases hw with ((rfl | rfl) | rfl) | rfl <;> exact absurd h (by decide)

theorem skipWs_cons_of_not_ws {c : Char} (l : PyStr) (h : isJsonWs c = false) :
    skipWs (c :: l) = c :: l := by
  rw [skipWs, h]
  rfl

theorem skipWs_cons_space (l : PyStr) : skipWs (' ' :: l) = skipWs l := by
  rw [skipWs]
  rfl

theorem parseVal_cons_space (f : Nat) (l : PyStr) :
    parseVal f (' ' :: l) = parseVal f l := by
  cases f with
  | zero => rfl
  | succ f => rw [parseVal, parseVal, skipWs_cons_space]

theorem hexVal_digitChar {d : Nat} (h : d < 16) :
    hexVal (Nat.digitChar d) = some d := by
  interval_cases d <;> decide

theorem digitChar_toNat_sub {d : Nat} (h : d < 10) :
    (Nat.digitChar d).toNat - 48 = d := by
  interval_cases d <;> decide

theorem isDigitCh_digitChar {d : Nat} (h : d < 10) :
    isDigitCh (Nat.digitChar d) = true := by
  interval_cases d <;> decide

theorem escList_nil : escList [] = [] := rfl

theorem escList_cons (c : Char) (s : PyStr) :
    escList (c :: s) = escapeChar c ++ escList s := rfl

theorem parseStrAux_escape :
    ∀ (s acc rest : PyStr),
      parseStrAux (escList s ++ '"' :: rest) acc = some (acc.reverse ++ s, rest) := by
  intro s
  induction s with
  | nil =>
    intro acc rest
    rw [escList_nil, List.nil_append, parseStrAux.eq_def]
    dsimp only
    rw [if_pos rfl]
    simp
  | cons c s ih =>
    intro acc rest
    rw [escList_cons, List.append_assoc]
    by_cases h1 : c = '"'
    · subst h1
      rw [show escapeChar '"' = ['\\', '"'] from rfl]
      simp only [List.cons_append, List.nil_append]
      rw [parseStrAux.eq_def]
      dsimp only
      rw [if_neg (by decide), if_pos rfl, if_pos rfl, ih]
      simp
    · by_cases h2 : c = '\\'
      · subst h2
        rw [show escapeChar '\\' = ['\\', '\\'] from rfl]
        simp only [List.cons_append, List.nil_append]
        rw [parseStrAux.eq_def]
        dsimp only
        rw [if_neg (by decide), if_pos rfl, if_neg (by decide), if_pos rfl, ih]
        simp
      · by_cases h3 : c = '\n'
        · subst h3
          rw [show escapeChar '\n' = ['\\', 'n'] from rfl]
          simp only [List.cons_append, List.nil_append]
          rw [parseStrAux.eq_def]
          dsimp only
          rw [if_neg (by decide), if_pos rfl, if_neg (by decide), if_neg (by decide),
            if_neg (by decide), if_neg (by decide), if_neg (by decide), if_pos rfl, ih]
          simp
        · by_cases h4 : c = '\t'
          · subst h4
            rw [show escapeChar '\t' = ['\\', 't'] from rfl]
            simp only [List.cons_append, List.nil_append]
            rw [parseStrAux.eq_def]
            dsimp only
            rw [if_neg (by decide), if_pos rfl, if_neg (by decide), if_neg (by decide),
              if_neg (by decide), if_neg (by decide), if_neg (by decide),
              if_neg (by decide), if_neg (by decide), if_pos rfl, ih]
            simp
          · by_cases h5 : c = '\r'
            · subst h5
              rw [show escapeChar '\r' = ['\\', 'r'] from rfl]
              simp only [List.cons_append, List.nil_append]
              rw [parseStrAux.eq_def]
              dsimp only
              rw [if_neg (by decide), if_pos rfl, if_neg (by decide), if_neg (by decide),
                if_neg (by decide), if_neg (by decide), if_neg (by decide),
                if_neg (by decide), if_pos rfl, ih]
              simp
            · by_cases h6 : c = '\x08'
              · subst h6
                rw [show escapeChar '\x08' = ['\\', 'b'] from rfl]
                simp only [List.cons_append, List.nil_append]
                rw [parseStrAux.eq_def]
                dsimp only
                rw [if_neg (by decide), if_pos rfl, if_neg (by decide),
                  if_neg (by decide), if_neg (by decide), if_pos rfl, ih]
                simp
              · by_cases h7 : c = '\x0c'
                · subst h7
                  rw [show escapeChar '\x0c' = ['\\', 'f'] from rfl]
                  simp only [List.cons_append, List.nil_append]
                  rw [parseStrAux.eq_def]
                  dsimp only
                  rw [if_neg (by decide), if_pos rfl, if_neg (by decide),
                    if_neg (by decide), if_neg (by decide), if_neg (by decide),
                    if_pos rfl, ih]
                  simp
                · by_cases h8 : c.toNat < 32
                  · rw [show escapeChar c =
                        ['\\', 'u', '0', '0', Nat.digitChar (c.toNat / 16),
                          Nat.digitChar (c.toNat % 16)] from by
                      unfold escapeChar
                      rw [if_neg h1, if_neg h2, if_neg h3, if_neg h4, if_neg h5,
                        if_neg h6, if_neg h7, if_pos h8]
                      rfl]
                    simp only [List.cons_append, List.nil_append]
                    rw [parseStrAux.eq_def]
                    dsimp only
                    rw [if_neg (by decide), if_pos rfl, if_neg (by decide),
                      if_neg (by decide), if_neg (by decide), if_neg (by decide),
                      if_neg (by decide), if_neg (by decide), if_neg (by decide),
                      if_neg (by decide), if_pos rfl]
                    rw [show hexVal '0' = some 0 from rfl]
                    rw [hexVal_digitChar (by omega : c.toNat / 16 < 16)]
                    rw [hexVal_digitChar (by omega : c.toNat % 16 < 16)]
                    dsimp only
                    rw [show 4096 * 0 + 256 * 0 + 16 * (c.toNat / 16) + c.toNat % 16 =
                      c.toNat from by omega]
                    rw [Char.ofNat_toNat, ih]
                    simp
                  · rw [show escapeChar c = [c] from by
                      unfold escapeChar
                      rw [if_neg h1, if_neg h2, if_neg h3, if_neg h4, if_neg h5,
                        if_neg h6, if_neg h7, if_neg h8]]
                    simp only [List.cons_append, List.nil_append]
                    rw [parseStrAux.eq_def]
                    dsimp only
                    rw [if_neg h1, if_neg h2, if_neg h8, ih]
                    simp

theorem digitsToNat_append_digit (xs : PyStr) (c : Char) :
    digitsToNat (xs ++ [c]) = 10 * digitsToNat xs + (c.toNat - 48) := by
  unfold digitsToNat
  rw [List.foldl_append]
  rfl

theorem natDecGo_spec :
    ∀ n f, n < f →
      digitsToNat (natDecGo f n) = n ∧ natDecGo f n ≠ [] ∧
        ∀ c ∈ natDecGo f n, isDigitCh c = true := by
  intro n
  induction n using Nat.strongRecOn with
  | _ n ih =>
    intro f hf
    match f with
    | fp + 1 =>
      rw [natDecGo]
      by_cases h10 : n < 10
      · rw [if_pos h10]
        refine ⟨?_, by simp, ?_⟩
        · have hone : digitsToNat [Nat.digitChar n] =
              10 * 0 + ((Nat.digitChar n).toNat - 48) := rfl
          rw [hone, digitChar_toNat_sub h10]
          omega
        · intro c hc
          simp only [List.mem_singleton] at hc
          subst hc
          exact isDigitCh_digitChar h10
      · rw [if_neg h10]
        have hfp : n / 10 < fp := by omega
        obtain ⟨ih1, _, ih3⟩ := ih (n / 10) (by omega) fp hfp
        refine ⟨?_, by simp, ?_⟩
        · rw [digitsToNat_append_digit, ih1,
            digitChar_toNat_sub (by omega : n % 10 < 10)]
          omega
        · intro c hc
          rcases List.mem_append.mp hc with hc | hc
          · exact ih3 c hc
          · simp only [List.mem_singleton] at hc
            subst hc
            exact isDigitCh_digitChar (by omega)

theorem natDec_spec (n : Nat) :
    digitsToNat (natDec n) = n ∧ natDec n ≠ [] ∧
      ∀ c ∈ natDec n, isDigitCh c = true :=
  natDecGo_spec n (n + 1) (by omega)

theorem takeWhile_digits_append (xs ys : PyStr) (hxs : ∀ c ∈ xs, isDigitCh c = true)
    (hys : noLeadDigit ys = true) :
    (xs ++ ys).takeWhile isDigitCh = xs := by
  induction xs with
  | nil =>
    simp only [List.nil_append]
    cases ys with
    | nil => rfl
    | cons y t =>
      have hy : isDigitCh y = false := by
        simp only [noLeadDigit, Bool.not_eq_true'] at hys
        exact hys
      simp [List.takeWhile_cons, hy]
  | cons x t ihx =>
    have hx := hxs x (List.mem_cons_self x t)
    simp only [List.cons_append, List.takeWhile_cons, hx, if_true]
    rw [ihx (fun c hc => hxs c (List.mem_cons_of_mem _ hc))]

theorem parseNum_intDec (n : Int) (rest : PyStr) (hrest : noLeadDigit rest = true) :
    parseNum (intDec n ++ rest) = some (.num n, rest) := by
  by_cases hneg : n < 0
  · rw [show intDec n = '-' :: natDec n.natAbs from by
      unfold intDec
      rw [if_pos hneg]]
    obtain ⟨hval, hne, hdig⟩ := natDec_spec n.natAbs
    rw [List.cons_append, parseNum.eq_def]
    dsimp only
    rw [if_pos rfl]
    rw [takeWhile_digits_append _ _ hdig hrest]
    rw [if_neg hne, hval, List.drop_left]
    have hn : -((n.natAbs : Nat) : Int) = n := by omega
    rw [hn]
  · rw [show intDec n = natDec n.toNat from by
      unfold intDec
      rw [if_neg hneg]]
    obtain ⟨hval, hne, hdig⟩ := natDec_spec n.toNat
    obtain ⟨d, ds, hds⟩ : ∃ d ds, natDec n.toNat = d :: ds := by
      cases h : natDec n.toNat with
      | nil => exact absurd h hne
      | cons d ds => exact ⟨d, ds, rfl⟩
    rw [hds, List.cons_append, parseNum.eq_def]
    dsimp only
    have hd : isDigitCh d = true := hdig d (by rw [hds]; exact List.mem_cons_self _ _)
    rw [if_neg (isDigitCh_ne '-' hd (by decide))]
    rw [show d :: (ds ++ rest) = (d :: ds) ++ rest from rfl]
    rw [takeWhile_digits_append _ _ (by rw [← hds] at *; exact hdig) hrest]
    rw [if_neg (by simp), ← hds, hval, List.drop_left]
    have hn : ((n.toNat : Nat) : Int) = n := Int.toNat_of_nonneg (by omega)
    rw [hn]

mutual

/-- Fuel sufficient for `parseVal` to read back a serialized value. -/
def jfuel : Json → Nat
  | .null => 1
  | .bool _ => 1
  | .num _ => 1
  | .str _ => 1
  | .obj ms => 1 + mfuel ms
  | .arr es => 1 + efuel es

/-- Fuel sufficient for `parseMembers` on a serialized member list. -/
def mfuel : List (PyStr × Json) → Nat
  | [] => 0
  | (_, v) :: ms => 1 + jfuel v + mfuel ms

/-- Fuel sufficient for `parseElems` on a serialized element list. -/
def efuel : List Json → Nat
  | [] => 0
  | v :: es => 1 + jfuel v + efuel es

end

theorem jfuel_pos (v : Json) : 1 ≤ jfuel v := by
  cases v <;> simp [jfuel]

theorem mfuel_pos_cons (k : PyStr) (x : Json) (t : List (PyStr × Json)) :
    1 ≤ mfuel ((k, x) :: t) := by
  simp only [mfuel]
  omega

theorem efuel_pos_cons (x : Json) (t : List Json) : 1 ≤ efuel (x :: t) := by
  simp only [efuel]
  omega

theorem serVal_head (v : Json) :
    ∃ c l, serVal v = c :: l ∧ isJsonWs c = false ∧ c ≠ ']' := by
  cases v with
  | null => exact ⟨'n', _, rfl, by decide, by decide⟩
  | bool b =>
    cases b with
    | true => exact ⟨'t', _, rfl, by decide, by decide⟩
    | false => exact ⟨'f', _, rfl, by decide, by decide⟩
  | str s => exact ⟨'"', _, rfl, by decide, by decide⟩
  | obj ms => exact ⟨lbrace, _, rfl, by decide, by decide⟩
  | arr es => exact ⟨'[', _, rfl, by decide, by decide⟩
  | num n =>
    by_cases hneg : n < 0
    · refine ⟨'-', natDec n.natAbs, ?_, by decide, by decide⟩
      show intDec n = _
      unfold intDec
      rw [if_pos hneg]
    · obtain ⟨_, hne, hdig⟩ := natDec_spec n.toNat
      obtain ⟨d, ds, hds⟩ : ∃ d ds, natDec n.toNat = d :: ds := by
        cases h : natDec n.toNat with
        | nil => exact absurd h hne
        | cons d ds => exact ⟨d, ds, rfl⟩
      have hd : isDigitCh d = true := hdig d (by rw [hds]; exact List.mem_cons_self _ _)
      refine ⟨d, ds, ?_, isJsonWs_of_digit hd, isDigitCh_ne _ hd (by decide)⟩
      show intDec n = _
      unfold intDec
      rw [if_neg hneg, hds]

theorem serMembersList_cons_head (k : PyStr) (x : Json) (t : List (PyStr × Json)) :
    ∃ l, serMembersList ((k, x) :: t) = '"' :: l := by
  cases t with
  | nil =>
    refine ⟨escList k ++ ['"'] ++ (':' :: ' ' :: serVal x), ?_⟩
    show serStrC k ++ (':' :: ' ' :: serVal x) = _
    simp [serStrC]
  | cons m ms =>
    refine ⟨escList k ++ ['"'] ++ (':' :: ' ' :: serVal x ++
      ',' :: ' ' :: serMembersList (m :: ms)), ?_⟩
    show (serStrC k ++ (':' :: ' ' :: serVal x)) ++
      ',' :: ' ' :: serMembersList (m :: ms) = _
    simp [serStrC]

theorem serElemsList_cons_head (x : Json) (t : List Json) (c : Char) (l : PyStr)
    (hcl : serVal x = c :: l) : ∃ l2, serElemsList (x :: t) = c :: l2 := by
  cases t with
  | nil => exact ⟨l, by show serVal x = _; rw [hcl]⟩
  | cons e es =>
    refine ⟨l ++ ',' :: ' ' :: serElemsList (e :: es), ?_⟩
    show serVal x ++ ',' :: ' ' :: serElemsList (e :: es) = _
    rw [hcl]
    rfl

theorem parseElems_cons_space (f : Nat) (l : PyStr) :
    parseElems f (' ' :: l) = parseElems f l := by
  cases f with
  | zero => rfl
  | succ f => rw [parseElems, parseElems, parseVal_cons_space]

theorem parse_serVal_round :
    ∀ f : Nat,
      (∀ (v : Json) (rest : PyStr), jfuel v ≤ f → noLeadDigit rest = true →
        parseVal f (serVal v ++ rest) = some (v, rest)) ∧
      (∀ (k : PyStr) (x : Json) (t : List (PyStr × Json)) (rest : PyStr),
        mfuel ((k, x) :: t) ≤ f → noLeadDigit rest = true →
        parseMembers f (serMembersList ((k, x) :: t) ++ rbrace :: rest) =
          some ((k, x) :: t, rest)) ∧
      (∀ (x : Json) (t : List Json) (rest : PyStr),
        efuel (x :: t) ≤ f → noLeadDigit rest = true →
        parseElems f (serElemsList (x :: t) ++ ']' :: rest) = some (x :: t, rest)) := by
  intro f
  induction f with
  | zero =>
    refine ⟨?_, ?_, ?_⟩
    · intro v rest hf _
      exact absurd hf (by have := jfuel_pos v; omega)
    · intro k x t rest hf _
      exact absurd hf (by have := mfuel_pos_cons k x t; omega)
    · intro x t rest hf _
      exact absurd hf (by have := efuel_pos_cons x t; omega)
  | succ f ih =>
    obtain ⟨ihV, ihM, ihE⟩ := ih
    refine ⟨?_, ?_, ?_⟩
    · intro v rest hf hrest
      cases v with
      | null =>
        rw [show serVal Json.null ++ rest = 'n' :: 'u' :: 'l' :: 'l' :: rest from rfl]
        rw [parseVal, skipWs_cons_of_not_ws _ (by decide)]
        dsimp only
        rw [if_neg (by decide), if_neg (by decide), if_neg (by decide),
          if_neg (by decide), if_neg (by decide), if_pos rfl, if_pos (by rfl)]
        rfl
      | bool b =>
        cases b with
        | true =>
          rw [show serVal (Json.bool true) ++ rest = 't' :: 'r' :: 'u' :: 'e' :: rest
            from rfl]
          rw [parseVal, skipWs_cons_of_not_ws _ (by decide)]
          dsimp only
          rw [if_neg (by decide), if_neg (by decide), if_neg (by decide),
            if_pos rfl, if_pos (by rfl)]
          rfl
        | false =>
          rw [show serVal (Json.bool false) ++ rest =
            'f' :: 'a' :: 'l' :: 's' :: 'e' :: rest from rfl]
          rw [parseVal, skipWs_cons_of_not_ws _ (by decide)]
          dsimp only
          rw [if_neg (by decide), if_neg (by decide), if_neg (by decide),
            if_neg (by decide), if_pos rfl, if_pos (by rfl)]
          rfl
      | str s =>
        have hser : serVal (Json.str s) ++ rest = '"' :: (escList s ++ '"' :: rest) := by
          show ('"' :: (escList s ++ ['"'])) ++ rest = _
          simp
        rw [hser, parseVal, skipWs_cons_of_not_ws _ (by decide)]
        dsimp only
        rw [if_neg (by decide), if_neg (by decide), if_pos rfl]
        rw [parseStrAux_escape s [] rest]
        simp
      | num n =>
        by_cases hneg : n < 0
        · have hintDec : intDec n = '-' :: natDec n.natAbs := by
            unfold intDec
            rw [if_pos hneg]
          rw [show serVal (Json.num n) = intDec n from rfl, hintDec, List.cons_append]
          rw [parseVal, skipWs_cons_of_not_ws _ (by decide)]
          dsimp only
          rw [if_neg (by decide), if_neg (by decide), if_neg (by decide),
            if_neg (by decide), if_neg (by decide), if_neg (by decide)]
          rw [← List.cons_append, ← hintDec]
          exact parseNum_intDec n rest hrest
        · have hne := (natDec_spec n.toNat).2.1
          have hdig := (natDec_spec n.toNat).2.2
          obtain ⟨d, ds, hds⟩ : ∃ d ds, natDec n.toNat = d :: ds := by
            cases h : natDec n.toNat with
            | nil => exact absurd h hne
            | cons d ds => exact ⟨d, ds, rfl⟩
          have hd : isDigitCh d = true :=
            hdig d (by rw [hds]; exact List.mem_cons_self _ _)
          have hintDec : intDec n = d :: ds := by
            unfold intDec
            rw [if_neg hneg, hds]
          rw [show serVal (Json.num n) = intDec n from rfl, hintDec, List.cons_append]
          rw [parseVal, skipWs_cons_of_not_ws _ (isJsonWs_of_digit hd)]
          dsimp only
          rw [if_neg (isDigitCh_ne _ hd (by decide)),
            if_neg (isDigitCh_ne _ hd (by decide)),
            if_neg (isDigitCh_ne _ hd (by decide)),
            if_neg (isDigitCh_ne _ hd (by decide)),
            if_neg (isDigitCh_ne _ hd (by decide)),
            if_neg (isDigitCh_ne _ hd (by decide))]
          rw [← List.cons_append, ← hintDec]
          exact parseNum_intDec n rest hrest
      | obj ms =>
        cases ms with
        | nil =>
          rw [show serVal (Json.obj []) ++ rest = lbrace :: rbrace :: rest from rfl]
          rw [parseVal, skipWs_cons_of_not_ws _ (by decide)]
          dsimp only
          rw [if_pos rfl, skipWs_cons_of_not_ws _ (by decide)]
          dsimp only
          rw [if_pos rfl]
        | cons m ms2 =>
          obtain ⟨k, x⟩ := m
          have hser : serVal (Json.obj ((k, x) :: ms2)) ++ rest =
              lbrace :: (serMembersList ((k, x) :: ms2) ++ rbrace :: rest) := by
            show (lbrace :: (serMembersList ((k, x) :: ms2) ++ [rbrace])) ++ rest = _
            simp
          rw [hser, parseVal, skipWs_cons_of_not_ws _ (by decide)]
          dsimp only
          rw [if_pos rfl]
          obtain ⟨l, hl⟩ := serMembersList_cons_head k x ms2
          rw [hl, List.cons_append, skipWs_cons_of_not_ws _ (by decide)]
          dsimp only
          rw [if_neg (by decide)]
          rw [← List.cons_append, ← hl]
          have hj : jfuel (Json.obj ((k, x) :: ms2)) = 1 + mfuel ((k, x) :: ms2) := by
            simp [jfuel]
          rw [hj] at hf
          rw [ihM k x ms2 rest (by omega) hrest]
      | arr es =>
        cases es with
        | nil =>
          rw [show serVal (Json.arr []) ++ rest = '[' :: ']' :: rest from rfl]
          rw [parseVal, skipWs_cons_of_not_ws _ (by decide)]
          dsimp only
          rw [if_neg (by decide), if_pos rfl, skipWs_cons_of_not_ws _ (by decide)]
          dsimp only
          rw [if_pos rfl]
        | cons x t =>
          have hser : serVal (Json.arr (x :: t)) ++ rest =
              '[' :: (serElemsList (x :: t) ++ ']' :: rest) := by
            show ('[' :: (serElemsList (x :: t) ++ [']'])) ++ rest = _
            simp
          rw [hser, parseVal, skipWs_cons_of_not_ws _ (by decide)]
          dsimp only
          rw [if_neg (by decide), if_pos rfl]
          obtain ⟨c, l, hcl, hnws, hnb⟩ := serVal_head x
          obtain ⟨l2, hl2⟩ := serElemsList_cons_head x t c l hcl
          rw [hl2, List.cons_append, skipWs_cons_of_not_ws _ hnws]
          dsimp only
          rw [if_neg hnb]
          rw [← List.cons_append, ← hl2]
          have hj : jfuel (Json.arr (x :: t)) = 1 + efuel (x :: t) := by
            simp [jfuel]
          rw [hj] at hf
          rw [ihE x t rest (by omega) hrest]
    · intro k x t rest hm hrest
      have e1 : mfuel ((k, x) :: t) = 1 + jfuel x + mfuel t := by simp [mfuel]
      have e4 := jfuel_pos x
      cases t with
      | nil =>
        have hser : serMembersList [(k, x)] ++ rbrace :: rest =
            '"' :: (escList k ++ '"' :: (':' :: ' ' :: (serVal x ++ rbrace :: rest))) := by
          show (serStrC k ++ (':' :: ' ' :: serVal x)) ++ rbrace :: rest = _
          simp [serStrC]
        rw [hser, parseMembers]
        rw [if_pos rfl, parseStrAux_escape k [] _]
        dsimp only
        rw [skipWs_cons_of_not_ws _ (by decide)]
        dsimp only
        rw [if_pos rfl, parseVal_cons_space]
        rw [ihV x (rbrace :: rest) (by rw [e1] at hm; omega) (by rfl)]
        dsimp only
        rw [skipWs_cons_of_not_ws _ (by decide)]
        dsimp only
        rw [if_neg (by decide), if_pos rfl]
        simp
      | cons m t2 =>
        obtain ⟨k2, x2⟩ := m
        have hser : serMembersList ((k, x) :: (k2, x2) :: t2) ++ rbrace :: rest =
            '"' :: (escList k ++ '"' :: (':' :: ' ' :: (serVal x ++
              ',' :: ' ' :: (serMembersList ((k2, x2) :: t2) ++ rbrace :: rest)))) := by
          show ((serStrC k ++ (':' :: ' ' :: serVal x)) ++
            ',' :: ' ' :: serMembersList ((k2, x2) :: t2)) ++ rbrace :: rest = _
          simp [serStrC]
        rw [hser, parseMembers]
        rw [if_pos rfl, parseStrAux_escape k [] _]
        dsimp only
        rw [skipWs_cons_of_not_ws _ (by decide)]
        dsimp only
        rw [if_pos rfl, parseVal_cons_space]
        have e3 := mfuel_pos_cons k2 x2 t2
        rw [ihV x (',' :: ' ' :: (serMembersList ((k2, x2) :: t2) ++ rbrace :: rest))
          (by rw [e1] at hm; omega) (by rfl)]
        dsimp only
        rw [skipWs_cons_of_not_ws _ (by decide)]
        dsimp only
        rw [if_pos rfl, skipWs_cons_space]
        obtain ⟨l, hl⟩ := serMembersList_cons_head k2 x2 t2
        rw [hl, List.cons_append, skipWs_cons_of_not_ws _ (by decide)]
        rw [← List.cons_append, ← hl]
        rw [ihM k2 x2 t2 rest (by rw [e1] at hm; omega) hrest]
        simp
    · intro x t rest he hrest
      have e1 : efuel (x :: t) = 1 + jfuel x + efuel t := by simp [efuel]
      have e4 := jfuel_pos x
      cases t with
      | nil =>
        rw [show serElemsList [x] ++ ']' :: rest = serVal x ++ ']' :: rest from rfl]
        rw [parseElems]
        rw [ihV x (']' :: rest) (by rw [e1] at he; omega) (by rfl)]
        dsimp only
        rw [skipWs_cons_of_not_ws _ (by decide)]
        dsimp only
        rw [if_neg (by decide), if_pos rfl]
      | cons e t2 =>
        have hser : serElemsList (x :: e :: t2) ++ ']' :: rest =
            serVal x ++ ',' :: ' ' :: (serElemsList (e :: t2) ++ ']' :: rest) := by
          show (serVal x ++ ',' :: ' ' :: serElemsList (e :: t2)) ++ ']' :: rest = _
          simp
        rw [hser, parseElems]
        have e3 := efuel_pos_cons e t2
        rw [ihV x (',' :: ' ' :: (serElemsList (e :: t2) ++ ']' :: rest))
          (by rw [e1] at he; omega) (by rfl)]
        dsimp only
        rw [skipWs_cons_of_not_ws _ (by decide)]
        dsimp only
        rw [if_pos rfl, parseElems_cons_space]
        rw [ihE e t2 rest (by rw [e1] at he; omega) hrest]

theorem serStrC_length (s : PyStr) : (serStrC s).length = (escList s).length + 2 := by
  simp [serStrC]

theorem serVal_length_bound :
    ∀ n : Nat,
      (∀ v : Json, jfuel v ≤ n → jfuel v ≤ (serVal v).length) ∧
      (∀ ms : List (PyStr × Json), mfuel ms ≤ n →
        mfuel ms ≤ (serMembersList ms).length + 1) ∧
      (∀ es : List Json, efuel es ≤ n → efuel es ≤ (serElemsList es).length + 1) := by
  intro n
  induction n using Nat.strongRecOn with
  | _ n ih =>
    refine ⟨?_, ?_, ?_⟩
    · intro v hv
      cases v with
      | null => simp [jfuel, serVal, nullText]
      | bool b => cases b <;> simp [jfuel, serVal, trueText, falseText]
      | num m =>
        rw [show jfuel (Json.num m) = 1 from by simp [jfuel]]
        rw [show serVal (Json.num m) = intDec m from rfl]
        unfold intDec
        split
        · simp
        · have hne := (natDec_spec m.toNat).2.1
          cases hh : natDec m.toNat with
          | nil => exact absurd hh hne
          | cons d ds => simp [hh]
      | str s =>
        rw [show jfuel (Json.str s) = 1 from by simp [jfuel],
          show serVal (Json.str s) = serStrC s from rfl, serStrC_length]
        omega
      | obj ms =>
        have h1 : jfuel (Json.obj ms) = 1 + mfuel ms := by simp [jfuel]
        have hlen : (serVal (Json.obj ms)).length = (serMembersList ms).length + 2 := by
          show (lbrace :: (serMembersList ms ++ [rbrace])).length = _
          simp
        rw [h1, hlen]
        rcases Nat.eq_zero_or_pos n with hn | hn
        · exfalso
          rw [h1] at hv
          omega
        · have hm2 : mfuel ms ≤ n - 1 := by
            rw [h1] at hv
            omega
          have := (ih (n - 1) (by omega)).2.1 ms hm2
          omega
      | arr es =>
        have h1 : jfuel (Json.arr es) = 1 + efuel es := by simp [jfuel]
        have hlen : (serVal (Json.arr es)).length = (serElemsList es).length + 2 := by
          show ('[' :: (serElemsList es ++ [']'])).length = _
          simp
        rw [h1, hlen]
        rcases Nat.eq_zero_or_pos n with hn | hn
        · exfalso
          rw [h1] at hv
          omega
        · have hm2 : efuel es ≤ n - 1 := by
            rw [h1] at hv
            omega
          have := (ih (n - 1) (by omega)).2.2 es hm2
          omega
    · intro ms hm
      cases ms with
      | nil =>
        rw [show mfuel ([] : List (PyStr × Json)) = 0 from by simp [mfuel]]
        omega
      | cons m t =>
        obtain ⟨k, x⟩ := m
        have e1 : mfuel ((k, x) :: t) = 1 + jfuel x + mfuel t := by simp [mfuel]
        have hjx := jfuel_pos x
        rcases Nat.eq_zero_or_pos n with hn | hn
        · exfalso
          rw [e1] at hm
          omega
        · have hx_b : jfuel x ≤ n - 1 := by
            rw [e1] at hm
            omega
          have hx := (ih (n - 1) (by omega)).1 x hx_b
          have hk : 2 ≤ (serStrC k).length := by
            rw [serStrC_length]
            omega
          cases t with
          | nil =>
            have hser : (serMembersList [(k, x)]).length =
                (serStrC k).length + 2 + (serVal x).length := by
              show (serStrC k ++ (':' :: ' ' :: serVal x)).length = _
              simp only [List.length_append, List.length_cons]
              omega
            rw [e1, hser,
              show mfuel ([] : List (PyStr × Json)) = 0 from by simp [mfuel]]
            omega
          | cons m2 t2 =>
            obtain ⟨k2, x2⟩ := m2
            have ht_b : mfuel ((k2, x2) :: t2) ≤ n - 1 := by
              rw [e1] at hm
              omega
            have ht := (ih (n - 1) (by omega)).2.1 ((k2, x2) :: t2) ht_b
            have hser : (serMembersList ((k, x) :: (k2, x2) :: t2)).length =
                (serStrC k).length + 2 + (serVal x).length + 2 +
                  (serMembersList ((k2, x2) :: t2)).length := by
              show ((serStrC k ++ (':' :: ' ' :: serVal x)) ++
                ',' :: ' ' :: serMembersList ((k2, x2) :: t2)).length = _
              simp only [List.length_append, List.length_cons]
              omega
            rw [e1, hser]
            omega
    · intro es he
      cases es with
      | nil =>
        rw [show efuel ([] : List Json) = 0 from by simp [efuel]]
        omega
      | cons x t =>
        have e1 : efuel (x :: t) = 1 + jfuel x + efuel t := by simp [efuel]
        have hjx := jfuel_pos x
        rcases Nat.eq_zero_or_pos n with hn | hn
        · exfalso
          rw [e1] at he
          omega
        · have hx_b : jfuel x ≤ n - 1 := by
            rw [e1] at he
            omega
          have hx := (ih (n - 1) (by omega)).1 x hx_b
          cases t with
          | nil =>
            have h3 : serElemsList [x] = serVal x := rfl
            have h2 : efuel ([] : List Json) = 0 := by simp [efuel]
            rw [e1, h3, h2]
            omega
          | cons e2 t2 =>
            have ht_b : efuel (e2 :: t2) ≤ n - 1 := by
              rw [e1] at he
              omega
            have ht := (ih (n - 1) (by omega)).2.2 (e2 :: t2) ht_b
            have hser : (serElemsList (x :: e2 :: t2)).length =
                (serVal x).length + 2 + (serElemsList (e2 :: t2)).length := by
              show (serVal x ++ ',' :: ' ' :: serElemsList (e2 :: t2)).length = _
              simp only [List.length_append, List.length_cons]
              omega
            rw [e1, hser]
            omega

theorem json_loads_serVal (v : Json) : json_loads (serVal v) = some v := by
  unfold json_loads
  have hb : jfuel v ≤ (serVal v).length :=
    (serVal_length_bound (jfuel v)).1 v (Nat.le_refl _)
  have hp : parseVal ((serVal v).length + 1) (serVal v ++ []) = some (v, []) :=
    (parse_serVal_round ((serVal v).length + 1)).1 v [] (by omega) rfl
  rw [List.append_nil] at hp
  rw [hp]
  rfl

theorem extract_json_serVal_obj (ms : List (PyStr × Json)) :
    extract_json (serVal (.obj ms)) = .parsed (.obj ms) := by
  have heq : ([] : PyStr) ++ lbrace :: (serMembersList ms ++ [rbrace]) =
      (lbrace :: serMembersList ms) ++ rbrace :: [] := by simp
  have h := extract_json_structured (p := []) (q := serMembersList ms ++ [rbrace])
    (u := lbrace :: serMembersList ms) (w := []) (by simp) (by simp) heq
  have hslice : (lbrace :: (serMembersList ms ++ [rbrace])).take
      ((lbrace :: serMembersList ms).length + 1 - ([] : PyStr).length) =
      lbrace :: (serMembersList ms ++ [rbrace]) := by
    have hlen : (lbrace :: serMembersList ms).length + 1 - ([] : PyStr).length =
        (lbrace :: (serMembersList ms ++ [rbrace])).length := by simp
    rw [hlen, List.take_length]
  rw [show ([] : PyStr) ++ lbrace :: (serMembersList ms ++ [rbrace]) =
      lbrace :: (serMembersList ms ++ [rbrace]) from by simp] at h
  rw [hslice] at h
  rw [show serVal (Json.obj ms) = lbrace :: (serMembersList ms ++ [rbrace]) from rfl, h]
  rw [show lbrace :: (serMembersList ms ++ [rbrace]) = serVal (Json.obj ms) from rfl]
  rw [json_loads_serVal]

/-- C4: extraction is idempotent on already-valid JSON: applied to the
JSON-serialized text form of any valid AnalysisResult-shaped object, it
succeeds (the slice between the first `\x7b` and the last `\x7d` is the
whole serialized object) and returns an equivalent (here: identical)
object. -/
theorem C4_extraction_idempotent (r : AnalysisResult) :
    extract_json (serializeAnalysisResult r) = .parsed r.toJson := by
  show extract_json (serVal r.toJson) = ExtractResult.parsed r.toJson
  have h : r.toJson = Json.obj
      [("aiReviewFramework".toList, .arr (r.aiReviewFramework.map FrameworkFinding.toJson)),
       ("planByPlanReview".toList, .arr (r.planByPlanReview.map PlanReview.toJson)),
       ("policyCompatibilitySummary".toList,
         .arr (r.policyCompatibilitySummary.map PolicyEntry.toJson)),
       ("aiRecommendationSummary".toList, .str r.aiRecommendationSummary)] := rfl
  rw [h]
  exact extract_json_serVal_obj _

set_option maxRecDepth 16384 in
example :
    extract_json (serializeAnalysisResult
      ⟨[⟨"NPPF".toList, ["P1".toList], "K".toList⟩], [], [],
        "fine\n\"quoted\"".toList⟩) =
    .parsed (AnalysisResult.toJson
      ⟨[⟨"NPPF".toList, ["P1".toList], "K".toList⟩], [], [],
        "fine\n\"quoted\"".toList⟩) := rfl
